import Mathlib

/-!
Shallow embedding of the rawuploader file-relay service (Go sources under
src/src): the wire framing, the upload and download handlers, the blob store,
the rate limiter and the client-side server selection, together with theorems
checking the specification's claims.

Bytes are modelled as natural numbers (all wire encoders below produce values
smaller than 256); multi-byte integers on the wire are big-endian, as in the
Go code (encoding/binary, BigEndian). Socket and file I/O is modelled as
successful unless a claim is about its failure; random values (nonces,
generated codes) are passed as explicit parameters.
-/

namespace RawUploader

abbrev Bytes := List Nat

/-- Big-endian byte string of `n % 256 ^ w`, width `w`
(binary.Write with binary.BigEndian in the Go code). -/
def beBytes : Nat → Nat → Bytes
  | 0, _ => []
  | w + 1, n => beBytes w (n / 256) ++ [n % 256]

def be16 (n : Nat) : Bytes := beBytes 2 n

def be32 (n : Nat) : Bytes := beBytes 4 n

def be64 (n : Nat) : Bytes := beBytes 8 n

/-- Numeric value of a big-endian byte string (binary.Read / BigEndian.Uint32). -/
def beVal (l : Bytes) : Nat := l.foldl (fun acc b => acc * 256 + b) 0

/-- Read exactly `n` bytes from the stream (io.ReadFull): fails when the
stream is shorter. -/
def readBytes : Nat → Bytes → Option (Bytes × Bytes)
  | 0, s => some ([], s)
  | _ + 1, [] => none
  | n + 1, b :: s =>
    match readBytes n s with
    | none => none
    | some (xs, r) => some (b :: xs, r)

/-- Read a `w`-byte big-endian integer from the stream (binary.Read). -/
def readBE (w : Nat) (s : Bytes) : Option (Nat × Bytes) :=
  (readBytes w s).map fun p => (beVal p.1, p.2)

theorem beBytes_length (w n : Nat) : (beBytes w n).length = w := by
  induction w generalizing n with
  | zero => rfl
  | succ w ih => simp [beBytes, ih]

theorem beBytes_lt (w n : Nat) : ∀ b ∈ beBytes w n, b < 256 := by
  induction w generalizing n with
  | zero => simp [beBytes]
  | succ w ih =>
    intro b hb
    simp only [beBytes, List.mem_append, List.mem_singleton] at hb
    rcases hb with h | h
    · exact ih _ _ h
    · simpa [h] using Nat.mod_lt n (by norm_num)

theorem readBytes_exact (l r : Bytes) : readBytes l.length (l ++ r) = some (l, r) := by
  induction l with
  | nil => rfl
  | cons b l ih => simp [readBytes, ih]

theorem beVal_append_single (l : Bytes) (b : Nat) :
    beVal (l ++ [b]) = beVal l * 256 + b := by
  simp [beVal, List.foldl_append]

theorem beVal_beBytes (w n : Nat) : beVal (beBytes w n) = n % 256 ^ w := by
  induction w generalizing n with
  | zero => simp [beBytes, beVal, Nat.mod_one]
  | succ w ih =>
    rw [beBytes, beVal_append_single, ih]
    rw [pow_succ, mul_comm (256 ^ w) 256, Nat.mod_mul]
    ring

theorem readBE_encode (w n : Nat) (r : Bytes) :
    readBE w (beBytes w n ++ r) = some (n % 256 ^ w, r) := by
  have h := readBytes_exact (beBytes w n) r
  rw [beBytes_length] at h
  simp [readBE, h, beVal_beBytes]

theorem readBE_encode_of_lt (w n : Nat) (r : Bytes) (h : n < 256 ^ w) :
    readBE w (beBytes w n ++ r) = some (n, r) := by
  rw [readBE_encode, Nat.mod_eq_of_lt h]

/-! ### Constants of the program (protocol.go / main.go) -/

def StatusOK : Nat := 0

def StatusChecksumError : Nat := 1

def StatusError : Nat := 2

def StatusNotFound : Nat := 3

def CodeLength : Nat := 6

def FileChunkSize : Nat := 256 * 1024

/-- MaxBlobSize = int64(15 * 1024 * 1024 * 1024), 15 GB per upload (main.go). -/
def MaxBlobSize : Int := 15 * 1024 * 1024 * 1024

/-- StorageDuration = 30 * time.Minute; times and durations are modelled as
integers in nanoseconds (Go time.Duration units). -/
def StorageDuration : Int := 30 * 60 * 1000000000

def RateLimitAttempts : Nat := 50

def RateLimitWindow : Int := 10 * 60 * 1000000000

def BanDuration : Int := 15 * 60 * 1000000000

/-! ### Names: filepath.Base and the ".." check -/

/-- The byte of the path separator character. -/
def sepB : Nat := 47

/-- The byte of the dot character. -/
def dotB : Nat := 46

/-- Is `pat` a leading segment of `l`? (used to model strings.Contains). -/
def leadsB : Bytes → Bytes → Bool
  | [], _ => true
  | _ :: _, [] => false
  | a :: as, b :: bs => a == b && leadsB as bs

/-- Does `l` contain `pat` as a contiguous substring? (strings.Contains). -/
def containsSub (pat : Bytes) : Bytes → Bool
  | [] => pat.isEmpty
  | b :: rest => leadsB pat (b :: rest) || containsSub pat rest

/-- filepath.Base on a Unix path, on bytes: empty path gives ".", trailing
separators are dropped, everything before the final separator is dropped, and
an all-separator path gives "/". -/
def filepathBase (p : Bytes) : Bytes :=
  if p = [] then [dotB]
  else
    let q := (p.reverse.dropWhile (· == sepB)).reverse
    let base := (q.reverse.takeWhile (· != sepB)).reverse
    if base = [] then [sepB] else base

/-- The handlers reject a name whose base is empty or contains ".."
(handleUpload, handleSecureUpload). -/
def nameRejected (name : Bytes) : Bool :=
  let baseName := filepathBase name
  baseName == [] || containsSub [dotB, dotB] baseName

/-- Senders truncate the name to 65535 bytes before writing it. -/
def truncName (name : Bytes) : Bytes := name.take 0xFFFF

/-! ### Data model: StoredBlob (server.go) -/

/-- The metadata record persisted per code. `chunks` is the legacy Chunks
field of the Go struct (a nil slice is `none`); current upload handlers never
set it. `createdAt` is a wall-clock instant in nanoseconds. -/
structure StoredBlob where
  name : Bytes
  plaintextChecksum : Bytes
  nonce : Bytes
  sealed : Bytes
  chunks : Option (List (Bytes × Bytes))
  totalPlainLen : Nat
  numChunks : Nat
  chunked : Bool
  secure : Bool
  createdAt : Int
deriving DecidableEq, Repr

/-! ### Chunk frames on the wire and in the .dat file -/

/-- One sealed chunk frame: 12-byte nonce, 4-byte big-endian sealed length,
then the sealed bytes. The same layout is used on the wire and in the
`<code>.dat` file. -/
def chunkFrame (c : Bytes × Bytes) : Bytes := c.1 ++ be32 c.2.length ++ c.2

def chunkFrames (cs : List (Bytes × Bytes)) : Bytes := (cs.map chunkFrame).flatten

/-- Sum of plaintext lengths recovered from sealed chunk lengths,
`Σ (sealedLen - 16)` (truncated Nat subtraction, matching the server which
subtracts only after checking `sealedLen ≥ 16`). -/
def sumPlain : List (Bytes × Bytes) → Nat
  | [] => 0
  | c :: cs => (c.2.length - 16) + sumPlain cs

theorem chunkFrames_cons (c : Bytes × Bytes) (cs : List (Bytes × Bytes)) :
    chunkFrames (c :: cs) = chunkFrame c ++ chunkFrames cs := by
  simp [chunkFrames]

/-! ### Regular chunked upload, server side (handleUpload, server.go:395) -/

/-- Result of an upload handler. `errNoFile` is the generic error status sent
before the `<code>.dat` file was created; `errFileRemoved` is the generic
error status sent after creating it, in which case the partial data file has
been deleted. In both error cases nothing is published. Disk writes are
modelled as successful. -/
inductive UploadOutcome where
  | ok (code : Bytes) (dat : Bytes) (blob : StoredBlob)
  | errNoFile
  | errFileRemoved
deriving DecidableEq, Repr

/-- The per-chunk loop of handleUpload: for each chunk read the 12-byte
nonce and the 4-byte sealed length, reject a sealed length below 16,
accumulate `plainCount += sealedLen - 16`, reject when the count exceeds
MaxBlobSize, then read the sealed bytes; the nonce, length and sealed bytes
are appended to the data file. Returns the data-file contents, the final
count and the unread stream. -/
def uploadChunkLoop : Nat → Nat → Bytes → Bytes → Option (Bytes × Nat × Bytes)
  | 0, plainCount, dat, s => some (dat, plainCount, s)
  | n + 1, plainCount, dat, s =>
    (readBytes 12 s).bind fun p1 =>
    (readBytes 4 p1.2).bind fun p2 =>
    if beVal p2.1 < 16 then none
    else if 0 < MaxBlobSize ∧ MaxBlobSize < ((plainCount + (beVal p2.1 - 16) : Nat) : Int) then
      none
    else
      (readBytes (beVal p2.1) p2.2).bind fun p3 =>
        uploadChunkLoop n (plainCount + (beVal p2.1 - 16))
          (dat ++ p1.1 ++ p2.1 ++ p3.1) p3.2

/-- Go's int64(u) conversion of a uint64 value: the identity below 2^63 and
the two's-complement wrap (subtracting 2^64) at and above it. The header
size-cap checks of handleUpload and handleSecureUploadChunked compare
MaxBlobSize against int64(totalPlainLen), so a declared total at or above
2^63 converts to a negative value there and slips past the check. -/
def toInt64 (n : Nat) : Int :=
  if n < 2 ^ 63 then (n : Int) else (n : Int) - 2 ^ 64

theorem toInt64_of_lt (n : Nat) (h : n < 2 ^ 63) : toInt64 n = (n : Int) := if_pos h

theorem toInt64_le (n : Nat) : toInt64 n ≤ (n : Int) := by
  rw [toInt64]
  split
  · exact le_refl _
  · linarith [show (0 : Int) < 2 ^ 64 by norm_num]

theorem toInt64_neg_of_ge (n : Nat) (h63 : 2 ^ 63 ≤ n) (h64 : n < 2 ^ 64) :
    toInt64 n < 0 := by
  rw [toInt64, if_neg (not_lt.mpr h63)]
  have : (n : Int) < 2 ^ 64 := by exact_mod_cast h64
  linarith

/-- An exact cap that does not fire still does not fire through the int64
conversion (the conversion never increases the value). -/
theorem toInt64_cap_of_cap {M : Int} {n : Nat} (h : ¬(0 < M ∧ M < (n : Int))) :
    ¬(0 < M ∧ M < toInt64 n) := by
  rintro ⟨h1, h2⟩
  exact h ⟨h1, lt_of_lt_of_le h2 (toInt64_le n)⟩

/-- The header phase of handleUpload, before the data file is created: code,
nameLen and name, totalPlain with the header size-cap check (comparing
MaxBlobSize against int64(totalPlainLen), which wraps at 2^63), numChunks,
checksum, and the name rejection. Any failure here is the generic error
status with no file created. -/
def parseUploadHeader (s : Bytes) :
    Option ((Bytes × Bytes × Nat × Nat × Bytes) × Bytes) :=
  (readBytes CodeLength s).bind fun pc =>
  (readBE 2 pc.2).bind fun pl =>
  (readBytes pl.1 pl.2).bind fun pn =>
  (readBE 8 pn.2).bind fun pt =>
  if 0 < MaxBlobSize ∧ MaxBlobSize < toInt64 pt.1 then none
  else
    (readBE 4 pt.2).bind fun pk =>
    (readBytes 32 pk.2).bind fun pchk =>
    if nameRejected pn.1 then none
    else some ((pc.1, pn.1, pt.1, pk.1, pchk.1), pchk.2)

/-- handleUpload: parse the header, stream the chunks to the data file, and
require the counted plaintext length to equal the header's declared total; on
a mismatch the partial data file is deleted. `now` is the wall clock at
publication. -/
def handleUpload (now : Int) (s : Bytes) : UploadOutcome :=
  match parseUploadHeader s with
  | none => .errNoFile
  | some ((code, name, totalPlainLen, numChunks, checksum), s) =>
    match uploadChunkLoop numChunks 0 [] s with
    | none => .errFileRemoved
    | some (dat, plainCount, _) =>
      if plainCount ≠ totalPlainLen then .errFileRemoved
      else .ok code dat
        { name := filepathBase name, plaintextChecksum := checksum
          nonce := [], sealed := [], chunks := none
          totalPlainLen := totalPlainLen, numChunks := numChunks
          chunked := true, secure := false, createdAt := now }

/-- The accounting that the handleUpload chunk loop performs, as a predicate
on the chunk list: every sealed length at least 16, and no running plaintext
count above MaxBlobSize. -/
def accountOk (pc : Nat) : List (Bytes × Bytes) → Bool
  | [] => true
  | c :: cs =>
    decide (16 ≤ c.2.length) &&
    !decide (0 < MaxBlobSize ∧ MaxBlobSize < ((pc + (c.2.length - 16) : Nat) : Int)) &&
    accountOk (pc + (c.2.length - 16)) cs

/-- The chunk loop on a stream that starts with well-formed frames: it
succeeds exactly when the accounting passes, consuming the frames and
appending them to the data file unchanged. -/
theorem uploadChunkLoop_spec (cs : List (Bytes × Bytes)) (pc : Nat) (dat rest : Bytes)
    (h12 : ∀ c ∈ cs, (c.1 : Bytes).length = 12)
    (hlt : ∀ c ∈ cs, (c.2 : Bytes).length < 2 ^ 32) :
    uploadChunkLoop cs.length pc dat (chunkFrames cs ++ rest) =
      if accountOk pc cs then some (dat ++ chunkFrames cs, pc + sumPlain cs, rest)
      else none := by
  induction cs generalizing pc dat with
  | nil => simp [uploadChunkLoop, chunkFrames, accountOk, sumPlain]
  | cons c cs ih =>
    have hn : c.1.length = 12 := h12 c (List.mem_cons_self c cs)
    have hs : c.2.length < 2 ^ 32 := hlt c (List.mem_cons_self c cs)
    have hstream :
        chunkFrames (c :: cs) ++ rest =
          c.1 ++ (be32 c.2.length ++ (c.2 ++ (chunkFrames cs ++ rest))) := by
      simp [chunkFrames_cons, chunkFrame, List.append_assoc]
    have r1 : readBytes 12 (chunkFrames (c :: cs) ++ rest) =
        some (c.1, be32 c.2.length ++ (c.2 ++ (chunkFrames cs ++ rest))) := by
      rw [hstream, ← hn]; exact readBytes_exact _ _
    have r2 : readBytes 4 (be32 c.2.length ++ (c.2 ++ (chunkFrames cs ++ rest))) =
        some (be32 c.2.length, c.2 ++ (chunkFrames cs ++ rest)) := by
      rw [show (4 : Nat) = (be32 c.2.length).length from (beBytes_length 4 _).symm]
      exact readBytes_exact _ _
    have hval : beVal (be32 c.2.length) = c.2.length := by
      have h256 : c.2.length < 256 ^ 4 := by norm_num at hs ⊢; omega
      rw [be32, beVal_beBytes, Nat.mod_eq_of_lt h256]
    rw [List.length_cons, uploadChunkLoop, r1, Option.some_bind, r2, Option.some_bind, hval]
    by_cases h16 : c.2.length < 16
    · have hnle : ¬ 16 ≤ c.2.length := by omega
      simp [h16, accountOk, hnle]
    · simp only [if_neg h16]
      by_cases hcap : 0 < MaxBlobSize ∧ MaxBlobSize < ((pc + (c.2.length - 16) : Nat) : Int)
      · rw [if_pos hcap]
        have hd : decide (0 < MaxBlobSize ∧
            MaxBlobSize < ((pc + (c.2.length - 16) : Nat) : Int)) = true :=
          decide_eq_true hcap
        have hacc : accountOk pc (c :: cs) = false := by
          simp [accountOk, hd]
          intro h1 h2
          exfalso
          rcases h2 with h | h
          · exact absurd hcap.1 (not_lt.mpr h)
          · have hxx : ((pc + (c.2.length - 16) : Nat) : Int) =
                (pc : Int) + ((c.2.length - 16 : Nat) : Int) := by push_cast; ring
            rw [hxx] at hcap
            exact absurd hcap.2 (not_lt.mpr h)
        rw [hacc]
        simp
      · rw [if_neg hcap]
        rw [readBytes_exact, Option.some_bind]
        have h12' : ∀ x ∈ cs, (x.1 : Bytes).length = 12 :=
          fun x hx => h12 x (List.mem_cons_of_mem c hx)
        have hlt' : ∀ x ∈ cs, (x.2 : Bytes).length < 2 ^ 32 :=
          fun x hx => hlt x (List.mem_cons_of_mem c hx)
        rw [ih _ _ h12' hlt']
        have hd : decide (0 < MaxBlobSize ∧
            MaxBlobSize < ((pc + (c.2.length - 16) : Nat) : Int)) = false :=
          decide_eq_false hcap
        have haccount : accountOk pc (c :: cs) =
            accountOk (pc + (c.2.length - 16)) cs := by
          simp [accountOk, hd, decide_eq_true (Nat.not_lt.mp h16)]
          intro _
          rcases not_and_or.mp hcap with h | h
          · exact Or.inl (le_of_not_lt h)
          · refine Or.inr ?_
            have hle := le_of_not_lt h
            have hxx : ((pc + (c.2.length - 16) : Nat) : Int) =
                (pc : Int) + ((c.2.length - 16 : Nat) : Int) := by push_cast; ring
            rw [hxx] at hle
            exact hle
        rw [haccount]
        by_cases hrest : accountOk (pc + (c.2.length - 16)) cs
        · simp only [hrest, if_pos]
          have hdat : dat ++ c.1 ++ be32 c.2.length ++ c.2 ++ chunkFrames cs =
              dat ++ chunkFrames (c :: cs) := by
            simp [chunkFrames_cons, chunkFrame, List.append_assoc]
          have hsum : pc + (c.2.length - 16) + sumPlain cs = pc + sumPlain (c :: cs) := by
            simp [sumPlain]; omega
          rw [hdat, hsum]
        · simp [hrest]

/-! ### Regular chunked upload, client side (WriteEncryptedUploadChunked) -/

/-- The (nonce, sealed) chunk list produced by sealing the plaintext chunks
in order starting at index `i`; `sealF i p` stands for encryptChunk on the
i-th chunk (AES-256-GCM under the code-derived key, with a fresh random
nonce; the cipher is passed in explicitly because it is Go standard-library
code, not repository code). -/
def sealedChunksFrom (sealF : Nat → Bytes → Bytes × Bytes) :
    Nat → List Bytes → List (Bytes × Bytes)
  | _, [] => []
  | i, p :: ps => sealF i p :: sealedChunksFrom sealF (i + 1) ps

def sealedChunks (sealF : Nat → Bytes → Bytes × Bytes) (plainChunks : List Bytes) :
    List (Bytes × Bytes) :=
  sealedChunksFrom sealF 0 plainChunks

/-- The byte layout of a regular chunked upload after the `U` message-kind
byte: code, nameLen, name, totalPlain, numChunks, checksum, then the chunk
frames. -/
def uploadWire (code name : Bytes) (totalPlain numChunks : Nat) (checksum : Bytes)
    (cs : List (Bytes × Bytes)) : Bytes :=
  code ++ be16 (truncName name).length ++ truncName name ++ be64 totalPlain
    ++ be32 numChunks ++ checksum ++ chunkFrames cs

/-- WriteEncryptedUploadChunked: the client-side serializer for a regular
chunked upload. When the code or the checksum has the wrong length the Go
function writes nothing and returns nil. -/
def WriteEncryptedUploadChunked (sealF : Nat → Bytes → Bytes × Bytes)
    (code name : Bytes) (totalPlainLen numChunks : Nat)
    (checksum : Bytes) (plainChunks : List Bytes) : Bytes :=
  if code.length ≠ CodeLength ∨ checksum.length ≠ 32 then []
  else uploadWire code name totalPlainLen numChunks checksum
    (sealedChunks sealF plainChunks)

/-! ### Blob store (server.go) -/

/-- Association-list lookup, first entry wins (newer entries are consed in
front, matching the map overwrite in the Go code). -/
def alGet {α β : Type} [DecidableEq α] : List (α × β) → α → Option β
  | [], _ => none
  | (k, v) :: rest, k' => if k = k' then some v else alGet rest k'

/-- Association-list key removal (Go map delete). -/
def alErase {α β : Type} [DecidableEq α] : List (α × β) → α → List (α × β)
  | [], _ => []
  | (k, v) :: rest, k' =>
    if k = k' then alErase rest k' else (k, v) :: alErase rest k'

/-- The store state: the in-memory (and persisted) index mapping codes to
creation instants, the decoded `<code>.blob` metadata files, and the
`<code>.dat` data files. -/
structure Store where
  index : List (Bytes × Int)
  blobs : List (Bytes × StoredBlob)
  dats : List (Bytes × Bytes)

/-- store.get: consult the index, refuse entries strictly older than the
storage duration, then open and decode the metadata file (a missing or
undecodable file reads as "not found"). -/
def Store.get (st : Store) (now : Int) (code : Bytes) : Option StoredBlob :=
  (alGet st.index code).bind fun createdAt =>
    if StorageDuration < now - createdAt then none
    else alGet st.blobs code

/-- store.put: write the metadata file, then insert (code, createdAt) into
the index and rewrite the index file. Disk writes are modelled as
successful. -/
def Store.put (st : Store) (code : Bytes) (b : StoredBlob) : Store :=
  { st with blobs := (code, b) :: st.blobs, index := (code, b.createdAt) :: st.index }

/-- The server side of one regular chunked upload on a fresh connection:
handleUpload streams the chunks into the `<code>.dat` file (written before
the commit) and on success publishes the blob as store.put does, inserting
into the blob files and the index; the second component is the status byte
sent back. -/
def serverAcceptUpload (st : Store) (now : Int) (wire : Bytes) : Store × Nat :=
  match handleUpload now wire with
  | .ok code dat blob =>
    ({ index := (code, blob.createdAt) :: st.index
       blobs := (code, blob) :: st.blobs
       dats := (code, dat) :: st.dats }, StatusOK)
  | _ => (st, StatusError)

/-! ### Download, server side (handleDownload, sendChunkedFromFile) -/

/-- WriteEncryptedBlob: the single-blob download payload (and, minus the
code, the body of a secure single-blob upload): nameLen, name, checksum,
nonce, sealedLen as u64, sealed. -/
def WriteEncryptedBlob (name checksum nonce sealed : Bytes) : Bytes :=
  be16 (truncName name).length ++ truncName name ++ checksum ++ nonce
    ++ be64 sealed.length ++ sealed

/-- The total plaintext length that WriteEncryptedBlobChunked recomputes from
a legacy chunk list: sealed lengths of at least 16 contribute length - 16. -/
def legacyTotalPlain : List (Bytes × Bytes) → Nat
  | [] => 0
  | c :: cs => (if 16 ≤ c.2.length then c.2.length - 16 else 0) + legacyTotalPlain cs

/-- WriteEncryptedBlobChunked: the download payload for a blob whose legacy
Chunks field is set. -/
def WriteEncryptedBlobChunked (name checksum : Bytes) (chunks : List (Bytes × Bytes)) :
    Bytes :=
  be16 (truncName name).length ++ truncName name ++ be64 (legacyTotalPlain chunks)
    ++ be32 chunks.length ++ checksum ++ chunkFrames chunks

/-- The per-chunk copy loop of sendChunkedFromFile: read a 16-byte frame
header from the data file, take the sealed length from its last four bytes,
read that many sealed bytes, and forward header and sealed bytes. -/
def sendChunkedLoop : Nat → Bytes → Bytes → Option Bytes
  | 0, _, out => some out
  | n + 1, df, out =>
    (readBytes 16 df).bind fun ph =>
    (readBytes (beVal (ph.1.drop 12)) ph.2).bind fun ps =>
    sendChunkedLoop n ps.2 (out ++ ph.1 ++ ps.1)

/-- sendChunkedFromFile: the chunked download payload streamed from the
`<code>.dat` file: nameLen, name, totalPlainLen, numChunks, checksum, then
NumChunks frames copied verbatim from the data file. `none` models a read
failure, which drops the connection mid-stream. -/
def sendChunkedFromFile (dat : Bytes) (blob : StoredBlob) : Option Bytes :=
  (sendChunkedLoop blob.numChunks dat []).map fun frames =>
    be16 (truncName blob.name).length ++ truncName blob.name
      ++ be64 blob.totalPlainLen ++ be32 blob.numChunks
      ++ blob.plaintextChecksum ++ frames

/-- A TCP download response: a bare status byte (error or not-found), a full
OK response with its format byte and payload, or an OK response cut off
after the format byte because streaming the payload from disk failed. -/
inductive DownloadResp where
  | status (s : Nat)
  | ok (format : Nat) (payload : Bytes)
  | truncated (format : Nat)
deriving DecidableEq, Repr

/-- handleDownload: rate-limit the remote IP (the limiter verdict is passed
as `allowed`), read the 6-byte code, look the blob up, re-check staleness
against the blob's own createdAt (evicting on staleness), then send status
OK, a format byte chosen from (secure, chunked, legacy chunks), and the
payload. The staleness eviction only affects the store, not the response,
and is modelled on the store by Store.remove below. -/
def handleDownload (st : Store) (now : Int) (allowed : Bool) (s : Bytes) : DownloadResp :=
  if !allowed then .status StatusError
  else
    match readBytes CodeLength s with
    | none => .status StatusError
    | some (code, _) =>
      match st.get now code with
      | none => .status StatusNotFound
      | some blob =>
        if StorageDuration < now - blob.createdAt then .status StatusNotFound
        else if blob.secure && blob.chunked then
          match alGet st.dats code with
          | none => .truncated 3
          | some dat =>
            match sendChunkedFromFile dat blob with
            | none => .truncated 3
            | some payload => .ok 3 payload
        else if blob.secure then
          .ok 2 (WriteEncryptedBlob blob.name blob.plaintextChecksum blob.nonce blob.sealed)
        else if blob.chunked then
          match alGet st.dats code with
          | none => .truncated 1
          | some dat =>
            match sendChunkedFromFile dat blob with
            | none => .truncated 1
            | some payload => .ok 1 payload
        else
          match blob.chunks with
          | some cs => .ok 1 (WriteEncryptedBlobChunked blob.name blob.plaintextChecksum cs)
          | none => .ok 0 (WriteEncryptedBlob blob.name blob.plaintextChecksum blob.nonce blob.sealed)

/-! ### Download, client side (runClientGet, chunked formats) -/

/-- checksumEqual: a length check followed by element-wise comparison, that
is, list equality. -/
def checksumEqual (a b : Bytes) : Bool := a == b

def concatBytes : List Bytes → Bytes
  | [] => []
  | p :: ps => p ++ concatBytes ps

/-- ReadEncryptedBlobChunkedHeader: nameLen, name, totalPlainLen, numChunks,
checksum. -/
def ReadEncryptedBlobChunkedHeader (s : Bytes) :
    Option ((Bytes × Nat × Nat × Bytes) × Bytes) :=
  (readBE 2 s).bind fun pl =>
  (readBytes pl.1 pl.2).bind fun pn =>
  (readBE 8 pn.2).bind fun pt =>
  (readBE 4 pt.2).bind fun pk =>
  (readBytes 32 pk.2).bind fun pchk =>
  some ((pn.1, pt.1, pk.1, pchk.1), pchk.2)

/-- The client loop that reads and decrypts numChunks chunk frames
(ReadEncryptedBlobNextChunk for format 1; ReadChunkRaw plus decryptWithKey
for format 3). `openF` is the AEAD open operation under the key in use,
passed in explicitly; the decrypted chunks are concatenated. -/
def clientChunkLoop (openF : Bytes → Bytes → Option Bytes) :
    Nat → Bytes → Bytes → Option (Bytes × Bytes)
  | 0, acc, s => some (acc, s)
  | n + 1, acc, s =>
    (readBytes 12 s).bind fun pn =>
    (readBE 4 pn.2).bind fun pl =>
    (readBytes pl.1 pl.2).bind fun ps =>
    (openF pn.1 ps.1).bind fun pt =>
    clientChunkLoop openF n (acc ++ pt) ps.2

/-- The client's handling of a chunked download payload (runClientGet,
formats 1 and 3): parse the chunked header, read and decrypt every chunk,
then compare the hash of the decrypted bytes against the checksum from the
header (`hash` models sha256). Returns the delivered name and plaintext on
success; `none` covers both read errors and the checksum-mismatch error. -/
def clientGetChunked (hash : Bytes → Bytes) (openF : Bytes → Bytes → Option Bytes)
    (payload : Bytes) : Option (Bytes × Bytes) :=
  (ReadEncryptedBlobChunkedHeader payload).bind fun ph =>
  (clientChunkLoop openF ph.1.2.2.1 [] ph.2).bind fun pp =>
  if checksumEqual (hash pp.1) ph.1.2.2.2 then some (ph.1.1, pp.1) else none

/-! ### Wire evaluation lemmas -/

theorem readBE16_encode (n : Nat) (r : Bytes) (h : n < 2 ^ 16) :
    readBE 2 (be16 n ++ r) = some (n, r) := by
  rw [be16]; exact readBE_encode_of_lt 2 n r (by norm_num at h ⊢; omega)

theorem readBE32_encode (n : Nat) (r : Bytes) (h : n < 2 ^ 32) :
    readBE 4 (be32 n ++ r) = some (n, r) := by
  rw [be32]; exact readBE_encode_of_lt 4 n r (by norm_num at h ⊢; omega)

theorem readBE64_encode (n : Nat) (r : Bytes) (h : n < 2 ^ 64) :
    readBE 8 (be64 n ++ r) = some (n, r) := by
  rw [be64]; exact readBE_encode_of_lt 8 n r (by norm_num at h ⊢; omega)

theorem truncName_length_lt (name : Bytes) : (truncName name).length < 2 ^ 16 := by
  simp only [truncName, List.length_take]
  omega

/-- parseUploadHeader applied to a well-formed upload wire. -/
theorem parseUploadHeader_wire (code name checksum : Bytes) (totalPlain numChunks : Nat)
    (cs : List (Bytes × Bytes))
    (hcode : code.length = CodeLength) (hchk : checksum.length = 32)
    (htp : totalPlain < 2 ^ 64) (hnc : numChunks < 2 ^ 32) :
    parseUploadHeader (uploadWire code name totalPlain numChunks checksum cs) =
      if 0 < MaxBlobSize ∧ MaxBlobSize < toInt64 totalPlain then none
      else if nameRejected (truncName name) then none
      else some ((code, truncName name, totalPlain, numChunks, checksum), chunkFrames cs) := by
  have hwire : uploadWire code name totalPlain numChunks checksum cs =
      code ++ (be16 (truncName name).length ++ (truncName name ++ (be64 totalPlain
        ++ (be32 numChunks ++ (checksum ++ chunkFrames cs))))) := by
    simp [uploadWire, List.append_assoc]
  rw [parseUploadHeader, hwire, ← hcode, readBytes_exact, Option.some_bind]
  rw [readBE16_encode _ _ (truncName_length_lt name), Option.some_bind]
  rw [readBytes_exact, Option.some_bind]
  rw [readBE64_encode _ _ htp, Option.some_bind]
  by_cases hcap : 0 < MaxBlobSize ∧ MaxBlobSize < toInt64 totalPlain
  · rw [if_pos hcap, if_pos hcap]
  · rw [if_neg hcap, if_neg hcap]
    rw [readBE32_encode _ _ hnc, Option.some_bind]
    rw [← hchk, readBytes_exact, Option.some_bind]

/-- handleUpload applied to a well-formed upload wire whose declared chunk
count is the actual number of frames. -/
theorem handleUpload_wire (now : Int) (code name checksum : Bytes)
    (totalPlain : Nat) (cs : List (Bytes × Bytes))
    (hcode : code.length = CodeLength) (hchk : checksum.length = 32)
    (htp : totalPlain < 2 ^ 64) (hnc : cs.length < 2 ^ 32)
    (h12 : ∀ c ∈ cs, (c.1 : Bytes).length = 12)
    (hlt : ∀ c ∈ cs, (c.2 : Bytes).length < 2 ^ 32) :
    handleUpload now (uploadWire code name totalPlain cs.length checksum cs) =
      if 0 < MaxBlobSize ∧ MaxBlobSize < toInt64 totalPlain then .errNoFile
      else if nameRejected (truncName name) then .errNoFile
      else if accountOk 0 cs then
        if sumPlain cs ≠ totalPlain then .errFileRemoved
        else .ok code (chunkFrames cs)
          { name := filepathBase (truncName name), plaintextChecksum := checksum
            nonce := [], sealed := [], chunks := none
            totalPlainLen := totalPlain, numChunks := cs.length
            chunked := true, secure := false, createdAt := now }
      else .errFileRemoved := by
  rw [handleUpload, parseUploadHeader_wire code name checksum totalPlain cs.length cs
    hcode hchk htp hnc]
  by_cases hcap : 0 < MaxBlobSize ∧ MaxBlobSize < toInt64 totalPlain
  · rw [if_pos hcap, if_pos hcap]
  · rw [if_neg hcap, if_neg hcap]
    by_cases hname : nameRejected (truncName name)
    · rw [if_pos hname, if_pos hname]
    · rw [if_neg hname, if_neg hname]
      have hloop := uploadChunkLoop_spec cs 0 [] [] h12 hlt
      rw [List.append_nil] at hloop
      simp only [List.nil_append] at hloop
      by_cases hacc : accountOk 0 cs
      · rw [if_pos hacc]
        rw [hacc, if_pos rfl] at hloop
        simp only [hloop, Nat.zero_add]
      · rw [if_neg hacc]
        rw [Bool.not_eq_true] at hacc
        rw [hacc] at hloop
        simp only [Bool.false_eq_true, if_false] at hloop
        simp [hloop]

theorem sumPlain_cons (c : Bytes × Bytes) (cs : List (Bytes × Bytes)) :
    sumPlain (c :: cs) = (c.2.length - 16) + sumPlain cs := rfl

/-- The accounting passes whenever every sealed length is at least 16 and
the final count stays within the cap. -/
theorem accountOk_of_le (cs : List (Bytes × Bytes)) (pc : Nat)
    (hge : ∀ c ∈ cs, 16 ≤ (c.2 : Bytes).length)
    (hle : ((pc + sumPlain cs : Nat) : Int) ≤ MaxBlobSize) :
    accountOk pc cs = true := by
  induction cs generalizing pc with
  | nil => rfl
  | cons c cs ih =>
    have h16 : 16 ≤ c.2.length := hge c (List.mem_cons_self c cs)
    have hstep : pc + (c.2.length - 16) + sumPlain cs = pc + sumPlain (c :: cs) := by
      rw [sumPlain_cons]; omega
    have hcap : ¬(0 < MaxBlobSize ∧ MaxBlobSize < ((pc + (c.2.length - 16) : Nat) : Int)) := by
      rintro ⟨-, hlt2⟩
      have hmono : ((pc + (c.2.length - 16) : Nat) : Int) ≤
          ((pc + sumPlain (c :: cs) : Nat) : Int) := by
        have hN : pc + (c.2.length - 16) ≤ pc + sumPlain (c :: cs) := by
          rw [sumPlain_cons]; omega
        exact_mod_cast hN
      exact absurd (lt_of_lt_of_le hlt2 (hmono.trans hle)) (lt_irrefl _)
    have hrec : accountOk (pc + (c.2.length - 16)) cs = true := by
      refine ih _ (fun x hx => hge x (List.mem_cons_of_mem c hx)) ?_
      rw [hstep]
      exact hle
    simp [accountOk, decide_eq_true h16, decide_eq_false hcap, hrec]
    rcases not_and_or.mp hcap with h | h
    · exact Or.inl (le_of_not_lt h)
    · refine Or.inr ?_
      have hle2 := le_of_not_lt h
      rwa [Nat.cast_add] at hle2

/-- The accounting fails whenever the final count exceeds the cap: the check
runs after every chunk, so the chunk that first pushes the running count past
MaxBlobSize trips it (the starting count being within the cap). -/
theorem accountOk_false_of_gt (cs : List (Bytes × Bytes)) (pc : Nat)
    (hpc : ((pc : Nat) : Int) ≤ MaxBlobSize)
    (hgt : MaxBlobSize < ((pc + sumPlain cs : Nat) : Int)) :
    accountOk pc cs = false := by
  have hMpos : (0 : Int) < MaxBlobSize := by norm_num [MaxBlobSize]
  induction cs generalizing pc with
  | nil =>
    exfalso
    rw [sumPlain] at hgt
    simp only [Nat.add_zero] at hgt
    exact absurd hgt (not_lt.mpr hpc)
  | cons c cs ih =>
    by_cases hcap : 0 < MaxBlobSize ∧ MaxBlobSize < ((pc + (c.2.length - 16) : Nat) : Int)
    · have hd : decide (0 < MaxBlobSize ∧
          MaxBlobSize < ((pc + (c.2.length - 16) : Nat) : Int)) = true :=
        decide_eq_true hcap
      simp [accountOk, hd]
      intro h1 h2
      exfalso
      rcases h2 with h | h
      · exact absurd hcap.1 (not_lt.mpr h)
      · have hxx : ((pc + (c.2.length - 16) : Nat) : Int) =
            (pc : Int) + ((c.2.length - 16 : Nat) : Int) := by push_cast; ring
        rw [hxx] at hcap
        exact absurd hcap.2 (not_lt.mpr h)
    · have hle : ((pc + (c.2.length - 16) : Nat) : Int) ≤ MaxBlobSize := by
        rcases not_and_or.mp hcap with h | h
        · exact absurd hMpos h
        · exact le_of_not_lt h
      have hrec : accountOk (pc + (c.2.length - 16)) cs = false := by
        apply ih _ hle
        have hstep : pc + (c.2.length - 16) + sumPlain cs = pc + sumPlain (c :: cs) := by
          rw [sumPlain_cons]; omega
        rw [hstep]
        exact hgt
      simp [accountOk, hrec]

/-- The accounting in the claim's language: it passes exactly when every
sealed length is at least 16 and no running plaintext sum over a prefix of
the chunks exceeds MaxBlobSize. -/
theorem accountOk_iff (cs : List (Bytes × Bytes)) (pc : Nat) :
    accountOk pc cs = true ↔
      ((∀ c ∈ cs, 16 ≤ (c.2 : Bytes).length) ∧
        ∀ k < cs.length, 0 < MaxBlobSize →
          ((pc + sumPlain (cs.take (k + 1)) : Nat) : Int) ≤ MaxBlobSize) := by
  induction cs generalizing pc with
  | nil => simp [accountOk]
  | cons c cs ih =>
    have hunfold : accountOk pc (c :: cs) =
        (decide (16 ≤ c.2.length) &&
          !decide (0 < MaxBlobSize ∧
            MaxBlobSize < ((pc + (c.2.length - 16) : Nat) : Int)) &&
          accountOk (pc + (c.2.length - 16)) cs) := rfl
    constructor
    · intro h
      rw [hunfold, Bool.and_eq_true, Bool.and_eq_true] at h
      obtain ⟨⟨hA, hB⟩, hC⟩ := h
      have h16 : 16 ≤ c.2.length := of_decide_eq_true hA
      have hBf : decide (0 < MaxBlobSize ∧
          MaxBlobSize < ((pc + (c.2.length - 16) : Nat) : Int)) = false := by
        rcases Bool.eq_false_or_eq_true (decide (0 < MaxBlobSize ∧
            MaxBlobSize < ((pc + (c.2.length - 16) : Nat) : Int))) with h | h
        · rw [h] at hB; exact absurd hB (by decide)
        · exact h
      have hcap : ¬(0 < MaxBlobSize ∧
          MaxBlobSize < ((pc + (c.2.length - 16) : Nat) : Int)) :=
        of_decide_eq_false hBf
      obtain ⟨hge', hpre'⟩ := (ih (pc + (c.2.length - 16))).mp hC
      refine ⟨?_, ?_⟩
      · intro x hx
        rcases List.mem_cons.mp hx with rfl | hx
        · exact h16
        · exact hge' x hx
      · intro k hk hpos
        match k with
        | 0 =>
          simp only [List.take_succ_cons, List.take_zero, sumPlain_cons]
          have hnlt : ¬ MaxBlobSize < ((pc + (c.2.length - 16) : Nat) : Int) :=
            fun hlt2 => hcap ⟨hpos, hlt2⟩
          have := not_lt.mp hnlt
          simpa [sumPlain] using this
        | k + 1 =>
          have hk' : k < cs.length := by simpa using hk
          have := hpre' k hk' hpos
          have hstep : pc + (c.2.length - 16) + sumPlain (cs.take (k + 1)) =
              pc + sumPlain ((c :: cs).take (k + 2)) := by
            simp only [List.take_succ_cons, sumPlain_cons]; omega
          rwa [hstep] at this
    · rintro ⟨hge, hpre⟩
      have h16 : 16 ≤ c.2.length := hge c (List.mem_cons_self c cs)
      have hcap : ¬(0 < MaxBlobSize ∧
          MaxBlobSize < ((pc + (c.2.length - 16) : Nat) : Int)) := by
        rintro ⟨hpos, hlt2⟩
        have h0 := hpre 0 (by simp) hpos
        simp only [List.take_succ_cons, List.take_zero, sumPlain_cons] at h0
        have : ((pc + (c.2.length - 16) : Nat) : Int) ≤ MaxBlobSize := by
          simpa [sumPlain] using h0
        exact absurd hlt2 (not_lt.mpr this)
      have hC : accountOk (pc + (c.2.length - 16)) cs = true := by
        apply (ih (pc + (c.2.length - 16))).mpr
        refine ⟨fun x hx => hge x (List.mem_cons_of_mem c hx), ?_⟩
        intro k hk hpos
        have := hpre (k + 1) (by simpa using hk) hpos
        have hstep : pc + (c.2.length - 16) + sumPlain (cs.take (k + 1)) =
            pc + sumPlain ((c :: cs).take (k + 2)) := by
          simp only [List.take_succ_cons, sumPlain_cons]; omega
        rw [hstep]
        exact this
      rw [hunfold]
      simp [decide_eq_true h16, decide_eq_false hcap, hC]
      rcases not_and_or.mp hcap with h | h
      · exact Or.inl (le_of_not_lt h)
      · refine Or.inr ?_
        have hle2 := le_of_not_lt h
        rwa [Nat.cast_add] at hle2

theorem beVal_be32 (n : Nat) (h : n < 2 ^ 32) : beVal (be32 n) = n := by
  rw [be32, beVal_beBytes]
  exact Nat.mod_eq_of_lt (by norm_num at h ⊢; omega)

theorem readBytes_all (l : Bytes) : readBytes l.length l = some (l, []) := by
  have h := readBytes_exact l []
  rwa [List.append_nil] at h

/-- The copy loop of sendChunkedFromFile forwards well-formed frames from the
data file unchanged. -/
theorem sendChunkedLoop_spec (cs : List (Bytes × Bytes)) (out : Bytes)
    (h12 : ∀ c ∈ cs, (c.1 : Bytes).length = 12)
    (hlt : ∀ c ∈ cs, (c.2 : Bytes).length < 2 ^ 32) :
    sendChunkedLoop cs.length (chunkFrames cs) out = some (out ++ chunkFrames cs) := by
  induction cs generalizing out with
  | nil => simp [sendChunkedLoop, chunkFrames]
  | cons c cs ih =>
    have hn := h12 c (List.mem_cons_self c cs)
    have hs := hlt c (List.mem_cons_self c cs)
    have hsplit : chunkFrames (c :: cs) =
        (c.1 ++ be32 c.2.length) ++ (c.2 ++ chunkFrames cs) := by
      simp [chunkFrames_cons, chunkFrame, List.append_assoc]
    have h16len : (c.1 ++ be32 c.2.length).length = 16 := by
      simp [hn, be32, beBytes_length]
    have r1 : readBytes 16 (chunkFrames (c :: cs)) =
        some (c.1 ++ be32 c.2.length, c.2 ++ chunkFrames cs) := by
      rw [hsplit, ← h16len]
      exact readBytes_exact _ _
    have hdrop : (c.1 ++ be32 c.2.length).drop 12 = be32 c.2.length := by
      rw [← hn]
      exact List.drop_left _ _
    rw [List.length_cons, sendChunkedLoop, r1, Option.some_bind, hdrop,
      beVal_be32 _ hs, readBytes_exact, Option.some_bind]
    rw [ih _ (fun x hx => h12 x (List.mem_cons_of_mem c hx))
      (fun x hx => hlt x (List.mem_cons_of_mem c hx))]
    have : out ++ (c.1 ++ be32 c.2.length) ++ c.2 ++ chunkFrames cs =
        out ++ chunkFrames (c :: cs) := by
      simp [chunkFrames_cons, chunkFrame, List.append_assoc]
    rw [this]

/-- sendChunkedFromFile on a data file holding exactly the blob's frames. -/
theorem sendChunkedFromFile_spec (cs : List (Bytes × Bytes)) (blob : StoredBlob)
    (hnum : blob.numChunks = cs.length)
    (h12 : ∀ c ∈ cs, (c.1 : Bytes).length = 12)
    (hlt : ∀ c ∈ cs, (c.2 : Bytes).length < 2 ^ 32) :
    sendChunkedFromFile (chunkFrames cs) blob =
      some (be16 (truncName blob.name).length ++ truncName blob.name
        ++ be64 blob.totalPlainLen ++ be32 blob.numChunks
        ++ blob.plaintextChecksum ++ chunkFrames cs) := by
  rw [sendChunkedFromFile, hnum, sendChunkedLoop_spec cs [] h12 hlt]
  simp

/-- The client's chunked-header reader applied to a chunked download payload. -/
theorem ReadEncryptedBlobChunkedHeader_wire (name checksum rest : Bytes)
    (totalPlain numChunks : Nat)
    (hchk : checksum.length = 32) (htp : totalPlain < 2 ^ 64) (hnc : numChunks < 2 ^ 32) :
    ReadEncryptedBlobChunkedHeader (be16 (truncName name).length ++ truncName name
        ++ be64 totalPlain ++ be32 numChunks ++ checksum ++ rest) =
      some ((truncName name, totalPlain, numChunks, checksum), rest) := by
  have hsplit : be16 (truncName name).length ++ truncName name ++ be64 totalPlain
      ++ be32 numChunks ++ checksum ++ rest =
      be16 (truncName name).length ++ (truncName name ++ (be64 totalPlain
        ++ (be32 numChunks ++ (checksum ++ rest)))) := by
    simp [List.append_assoc]
  rw [ReadEncryptedBlobChunkedHeader, hsplit]
  rw [readBE16_encode _ _ (truncName_length_lt name), Option.some_bind]
  rw [readBytes_exact, Option.some_bind]
  rw [readBE64_encode _ _ htp, Option.some_bind]
  rw [readBE32_encode _ _ hnc, Option.some_bind]
  rw [← hchk, readBytes_exact, Option.some_bind]

/-- The client chunk loop decrypts well-formed frames in order and
concatenates the plaintexts. -/
theorem clientChunkLoop_spec (openF : Bytes → Bytes → Option Bytes)
    (f : Bytes × Bytes → Bytes) (cs : List (Bytes × Bytes)) (acc rest : Bytes)
    (h12 : ∀ c ∈ cs, (c.1 : Bytes).length = 12)
    (hlt : ∀ c ∈ cs, (c.2 : Bytes).length < 2 ^ 32)
    (hopen : ∀ c ∈ cs, openF c.1 c.2 = some (f c)) :
    clientChunkLoop openF cs.length acc (chunkFrames cs ++ rest) =
      some (acc ++ concatBytes (cs.map f), rest) := by
  induction cs generalizing acc with
  | nil => simp [clientChunkLoop, chunkFrames, concatBytes]
  | cons c cs ih =>
    have hn := h12 c (List.mem_cons_self c cs)
    have hs := hlt c (List.mem_cons_self c cs)
    have hstream : chunkFrames (c :: cs) ++ rest =
        c.1 ++ (be32 c.2.length ++ (c.2 ++ (chunkFrames cs ++ rest))) := by
      simp [chunkFrames_cons, chunkFrame, List.append_assoc]
    have r1 : readBytes 12 (chunkFrames (c :: cs) ++ rest) =
        some (c.1, be32 c.2.length ++ (c.2 ++ (chunkFrames cs ++ rest))) := by
      rw [hstream, ← hn]
      exact readBytes_exact _ _
    rw [List.length_cons, clientChunkLoop, r1, Option.some_bind]
    rw [readBE32_encode _ _ hs, Option.some_bind]
    rw [readBytes_exact, Option.some_bind]
    rw [hopen c (List.mem_cons_self c cs), Option.some_bind]
    rw [ih _ (fun x hx => h12 x (List.mem_cons_of_mem c hx))
      (fun x hx => hlt x (List.mem_cons_of_mem c hx))
      (fun x hx => hopen x (List.mem_cons_of_mem c hx))]
    have : acc ++ f c ++ concatBytes (cs.map f) =
        acc ++ concatBytes ((c :: cs).map f) := by
      simp [concatBytes, List.append_assoc]
    rw [this]

/-! ### Facts about the sealed chunk list -/

theorem sealedChunksFrom_length (sealF : Nat → Bytes → Bytes × Bytes)
    (ps : List Bytes) (i : Nat) :
    (sealedChunksFrom sealF i ps).length = ps.length := by
  induction ps generalizing i with
  | nil => rfl
  | cons p ps ih => simp [sealedChunksFrom, ih]

theorem sealedChunksFrom_mem (sealF : Nat → Bytes → Bytes × Bytes)
    (ps : List Bytes) (i : Nat) (c : Bytes × Bytes)
    (hc : c ∈ sealedChunksFrom sealF i ps) : ∃ j p, p ∈ ps ∧ c = sealF j p := by
  induction ps generalizing i with
  | nil => simp [sealedChunksFrom] at hc
  | cons p ps ih =>
    rcases List.mem_cons.mp hc with rfl | hc
    · exact ⟨i, p, List.mem_cons_self p ps, rfl⟩
    · obtain ⟨j, q, hq, rfl⟩ := ih (i + 1) hc
      exact ⟨j, q, List.mem_cons_of_mem p hq, rfl⟩

theorem sealedChunksFrom_map_open (sealF : Nat → Bytes → Bytes × Bytes)
    (openF : Bytes → Bytes → Option Bytes)
    (hround : ∀ i p, openF (sealF i p).1 (sealF i p).2 = some p)
    (ps : List Bytes) (i : Nat) :
    (sealedChunksFrom sealF i ps).map (fun c => (openF c.1 c.2).getD []) = ps := by
  induction ps generalizing i with
  | nil => rfl
  | cons p ps ih => simp [sealedChunksFrom, hround, ih]

theorem sumPlain_sealedChunksFrom (sealF : Nat → Bytes → Bytes × Bytes)
    (hslen : ∀ i p, (sealF i p).2.length = p.length + 16)
    (ps : List Bytes) (i : Nat) :
    sumPlain (sealedChunksFrom sealF i ps) = (concatBytes ps).length := by
  induction ps generalizing i with
  | nil => rfl
  | cons p ps ih =>
    simp [sealedChunksFrom, sumPlain_cons, hslen, concatBytes, ih]

theorem alGet_cons_self {α β : Type} [DecidableEq α] (k : α) (v : β) (l : List (α × β)) :
    alGet ((k, v) :: l) k = some v := by
  simp [alGet]

theorem alGet_erase_self {α β : Type} [DecidableEq α] (l : List (α × β)) (k : α) :
    alGet (alErase l k) k = none := by
  induction l with
  | nil => rfl
  | cons p rest ih =>
    obtain ⟨k', v⟩ := p
    by_cases h : k' = k
    · simp [alErase, h, ih]
    · simp [alErase, alGet, h, ih]

/-- handleDownload on an allowed request for a fresh stored blob that is
chunked and not secure: the response is format byte 1 followed by the
streamed chunked payload. -/
theorem handleDownload_chunked (st : Store) (now : Int) (code : Bytes)
    (blob : StoredBlob) (dat payload : Bytes)
    (hcode : code.length = CodeLength)
    (hget : st.get now code = some blob)
    (hfresh : ¬ StorageDuration < now - blob.createdAt)
    (hsec : blob.secure = false) (hch : blob.chunked = true)
    (hdat : alGet st.dats code = some dat)
    (hsend : sendChunkedFromFile dat blob = some payload) :
    handleDownload st now true code = DownloadResp.ok 1 payload := by
  rw [handleDownload]
  simp only [Bool.not_true, Bool.false_eq_true, if_false]
  rw [← hcode, readBytes_all]
  simp only [hget, hsec, hch, hdat, hsend, if_neg hfresh, Bool.false_and,
    Bool.false_eq_true, if_false, if_true]

/-! ### Claim C1: regular upload/download round trip -/

/-- C1: a regular chunked upload that completes with status OK, immediately
followed by a download of the same code, delivers plaintext identical
bit-for-bit to the uploaded content, and the hash of the delivered plaintext
equals the checksum carried in the stored metadata. `sealF` and `openF` model
AES-256-GCM seal and open under the code-derived key and `hash` models
SHA-256 (Go standard-library code external to the repository); the
hypotheses on them state AEAD correctness and the GCM frame layout (12-byte
nonce, 16-byte tag). -/
theorem C1_roundtrip
    (sealF : Nat → Bytes → Bytes × Bytes) (openF : Bytes → Bytes → Option Bytes)
    (hash : Bytes → Bytes)
    (hround : ∀ i p, openF (sealF i p).1 (sealF i p).2 = some p)
    (hnonce : ∀ i p, (sealF i p).1.length = 12)
    (hslen : ∀ i p, (sealF i p).2.length = p.length + 16)
    (st : Store) (now nowD : Int)
    (plainChunks : List Bytes)
    (hchunksz : ∀ p ∈ plainChunks, p.length ≤ FileChunkSize)
    (hn : plainChunks.length < 2 ^ 32)
    (code name : Bytes) (hcode : code.length = CodeLength)
    (hname : nameRejected (truncName name) = false)
    (content wire : Bytes) (stup : Store) (status : Nat)
    (hcontent : content = concatBytes plainChunks)
    (hhash : (hash content).length = 32)
    (hsize : (content.length : Int) ≤ MaxBlobSize)
    (hfresh : nowD - now ≤ StorageDuration)
    (hwire : wire = WriteEncryptedUploadChunked sealF code name content.length
      plainChunks.length (hash content) plainChunks)
    (hup : serverAcceptUpload st now wire = (stup, status)) :
    status = StatusOK ∧
    ∃ blob payload plaintext,
      alGet stup.blobs code = some blob ∧
      handleDownload stup nowD true code = DownloadResp.ok 1 payload ∧
      clientGetChunked hash openF payload = some (truncName blob.name, plaintext) ∧
      plaintext = content ∧
      hash plaintext = blob.plaintextChecksum := by
  have hMax : MaxBlobSize = (16106127360 : Int) := by norm_num [MaxBlobSize]
  -- facts about the sealed chunk list
  have hcs12 : ∀ c ∈ sealedChunks sealF plainChunks, (c.1 : Bytes).length = 12 := by
    intro c hc
    obtain ⟨j, p, hp, rfl⟩ := sealedChunksFrom_mem sealF plainChunks 0 c hc
    exact hnonce j p
  have hcslt : ∀ c ∈ sealedChunks sealF plainChunks, (c.2 : Bytes).length < 2 ^ 32 := by
    intro c hc
    obtain ⟨j, p, hp, rfl⟩ := sealedChunksFrom_mem sealF plainChunks 0 c hc
    have h1 := hslen j p
    have h2 := hchunksz p hp
    rw [h1]
    have : FileChunkSize = 262144 := rfl
    norm_num [this] at h2 ⊢
    omega
  have hcsge : ∀ c ∈ sealedChunks sealF plainChunks, 16 ≤ (c.2 : Bytes).length := by
    intro c hc
    obtain ⟨j, p, hp, rfl⟩ := sealedChunksFrom_mem sealF plainChunks 0 c hc
    rw [hslen j p]
    omega
  have hcslen : (sealedChunks sealF plainChunks).length = plainChunks.length :=
    sealedChunksFrom_length sealF plainChunks 0
  have hsum : sumPlain (sealedChunks sealF plainChunks) = content.length := by
    rw [sealedChunks, sumPlain_sealedChunksFrom sealF hslen, hcontent]
  have hsizeN : content.length ≤ 16106127360 := by
    rw [hMax] at hsize
    exact_mod_cast hsize
  have htp : content.length < 2 ^ 64 := by omega
  -- the wire is the raw upload layout over the sealed chunks
  have hwire2 : wire = uploadWire code name content.length
      (sealedChunks sealF plainChunks).length (hash content)
      (sealedChunks sealF plainChunks) := by
    rw [hwire, WriteEncryptedUploadChunked, if_neg, hcslen]
    push_neg
    exact ⟨hcode, hhash⟩
  -- evaluate the upload handler
  have hcap : ¬(0 < MaxBlobSize ∧ MaxBlobSize < toInt64 content.length) :=
    toInt64_cap_of_cap (by rintro ⟨-, hlt2⟩; exact absurd hlt2 (not_lt.mpr hsize))
  have hacc : accountOk 0 (sealedChunks sealF plainChunks) = true := by
    apply accountOk_of_le _ _ hcsge
    rw [Nat.zero_add, hsum]
    exact hsize
  have hhandle : handleUpload now wire = UploadOutcome.ok code
      (chunkFrames (sealedChunks sealF plainChunks))
      { name := filepathBase (truncName name), plaintextChecksum := hash content
        nonce := [], sealed := [], chunks := none
        totalPlainLen := content.length
        numChunks := (sealedChunks sealF plainChunks).length
        chunked := true, secure := false, createdAt := now } := by
    rw [hwire2, handleUpload_wire now code name (hash content) content.length
      (sealedChunks sealF plainChunks) hcode hhash htp (hcslen ▸ hn) hcs12 hcslt]
    rw [if_neg hcap, if_neg (by rw [hname]; exact Bool.false_ne_true), if_pos hacc,
      if_neg (by rw [hsum]; exact fun h => h rfl)]
  -- the published store
  rw [serverAcceptUpload, hhandle] at hup
  injection hup with hst hstatus
  subst hst
  subst hstatus
  refine ⟨rfl,
    { name := filepathBase (truncName name), plaintextChecksum := hash content
      nonce := [], sealed := [], chunks := none
      totalPlainLen := content.length
      numChunks := (sealedChunks sealF plainChunks).length
      chunked := true, secure := false, createdAt := now },
    be16 (truncName (filepathBase (truncName name))).length
      ++ truncName (filepathBase (truncName name))
      ++ be64 content.length ++ be32 (sealedChunks sealF plainChunks).length
      ++ hash content ++ chunkFrames (sealedChunks sealF plainChunks),
    content, alGet_cons_self _ _ _, ?_, ?_, rfl, rfl⟩
  -- the download response
  · exact handleDownload_chunked _ nowD code
      { name := filepathBase (truncName name), plaintextChecksum := hash content
        nonce := [], sealed := [], chunks := none
        totalPlainLen := content.length
        numChunks := (sealedChunks sealF plainChunks).length
        chunked := true, secure := false, createdAt := now }
      (chunkFrames (sealedChunks sealF plainChunks)) _ hcode
      (by rw [Store.get]
          simp only [alGet_cons_self, Option.some_bind]
          rw [if_neg (not_lt.mpr hfresh)])
      (not_lt.mpr hfresh) rfl rfl (alGet_cons_self _ _ _)
      (sendChunkedFromFile_spec (sealedChunks sealF plainChunks) _ rfl hcs12 hcslt)
  -- the client side
  · rw [clientGetChunked]
    rw [ReadEncryptedBlobChunkedHeader_wire _ _ _ _ _ hhash htp (hcslen ▸ hn),
      Option.some_bind]
    have hloop := clientChunkLoop_spec openF (fun c => (openF c.1 c.2).getD [])
      (sealedChunks sealF plainChunks) [] [] hcs12 hcslt
      (fun c hc => by
        obtain ⟨j, p, hp, rfl⟩ := sealedChunksFrom_mem sealF plainChunks 0 c hc
        rw [hround j p]
        simp [hround j p])
    rw [List.append_nil] at hloop
    rw [hloop, Option.some_bind]
    rw [sealedChunks, sealedChunksFrom_map_open sealF openF hround plainChunks 0]
    simp only [List.nil_append]
    rw [← hcontent]
    rw [if_pos (by simp [checksumEqual])]

/-- A toy AEAD used to instantiate the cipher hypotheses in witnesses: the
sealed bytes are the plaintext followed by a 16-byte tag of zeros, the nonce
is 12 zero bytes. -/
def toySeal (i : Nat) (p : Bytes) : Bytes × Bytes :=
  (List.replicate 12 0, p ++ List.replicate 16 0)

def toyOpen (nonce sealed : Bytes) : Option Bytes :=
  if 16 ≤ sealed.length then some (sealed.take (sealed.length - 16)) else none

def toyHash (l : Bytes) : Bytes := List.replicate 32 l.length

theorem toyOpen_toySeal : ∀ i p, toyOpen (toySeal i p).1 (toySeal i p).2 = some p := by
  intro i p
  simp [toySeal, toyOpen]

theorem toySeal_nonce : ∀ i p, ((toySeal i p).1 : Bytes).length = 12 := by
  intro i p
  simp [toySeal]

theorem toySeal_len : ∀ i p, ((toySeal i p).2 : Bytes).length = p.length + 16 := by
  intro i p
  simp [toySeal]

def c1code : Bytes := [49, 49, 49, 49, 49, 49]

def c1wire : Bytes :=
  WriteEncryptedUploadChunked toySeal c1code [102] 3 2 (toyHash [1, 2, 3]) [[1, 2], [3]]

/-- Witness for C1 at a concrete three-byte upload split into two chunks. -/
theorem C1_roundtrip_witness :
    (serverAcceptUpload ⟨[], [], []⟩ 0 c1wire).2 = StatusOK ∧
    ∃ blob payload plaintext,
      alGet (serverAcceptUpload ⟨[], [], []⟩ 0 c1wire).1.blobs c1code = some blob ∧
      handleDownload (serverAcceptUpload ⟨[], [], []⟩ 0 c1wire).1 0 true c1code =
        DownloadResp.ok 1 payload ∧
      clientGetChunked toyHash toyOpen payload = some (truncName blob.name, plaintext) ∧
      plaintext = [1, 2, 3] ∧
      toyHash plaintext = blob.plaintextChecksum :=
  C1_roundtrip toySeal toyOpen toyHash toyOpen_toySeal toySeal_nonce toySeal_len
    ⟨[], [], []⟩ 0 0 [[1, 2], [3]] (by decide) (by decide)
    c1code [102] (by decide) (by decide)
    [1, 2, 3] c1wire (serverAcceptUpload ⟨[], [], []⟩ 0 c1wire).1
    (serverAcceptUpload ⟨[], [], []⟩ 0 c1wire).2
    rfl (by decide) (by decide) (by decide) rfl rfl

/-! ### Claim C2: the regular upload's chunk accounting -/

/-- C2: a regular chunked upload is published with status OK only if every
chunk's sealed length is at least 16, the running sum of (sealedLen - 16)
never exceeds MaxBlobSize, and after the last chunk that sum equals the
header's declared totalPlain; and on a mismatched sum with an otherwise
valid stream the partial data file is deleted and the generic error status
is sent (the errFileRemoved outcome). -/
theorem C2_upload_accounting (now : Int) (code name checksum : Bytes)
    (totalPlain : Nat) (cs : List (Bytes × Bytes))
    (hcode : code.length = CodeLength) (hchk : checksum.length = 32)
    (htp : totalPlain < 2 ^ 64)
    (hnc : cs.length < 2 ^ 32)
    (h12 : ∀ c ∈ cs, (c.1 : Bytes).length = 12)
    (hlt : ∀ c ∈ cs, (c.2 : Bytes).length < 2 ^ 32) :
    (∀ code' dat blob,
      handleUpload now (uploadWire code name totalPlain cs.length checksum cs) =
          UploadOutcome.ok code' dat blob →
        (∀ c ∈ cs, 16 ≤ (c.2 : Bytes).length) ∧
        (∀ k < cs.length, 0 < MaxBlobSize →
          ((sumPlain (cs.take (k + 1)) : Nat) : Int) ≤ MaxBlobSize) ∧
        sumPlain cs = totalPlain) ∧
    (nameRejected (truncName name) = false →
      ¬(0 < MaxBlobSize ∧ MaxBlobSize < (totalPlain : Int)) →
      accountOk 0 cs = true →
      sumPlain cs ≠ totalPlain →
      handleUpload now (uploadWire code name totalPlain cs.length checksum cs) =
        UploadOutcome.errFileRemoved) := by
  have hwire := handleUpload_wire now code name checksum totalPlain cs
    hcode hchk htp hnc h12 hlt
  constructor
  · intro code' dat blob h
    rw [hwire] at h
    by_cases hcap : 0 < MaxBlobSize ∧ MaxBlobSize < toInt64 totalPlain
    · rw [if_pos hcap] at h
      exact absurd h (by simp)
    · rw [if_neg hcap] at h
      by_cases hname : nameRejected (truncName name)
      · rw [if_pos hname] at h
        exact absurd h (by simp)
      · rw [if_neg hname] at h
        by_cases hacc : accountOk 0 cs
        · obtain ⟨hge, hpre⟩ := (accountOk_iff cs 0).mp hacc
          refine ⟨hge, ?_, ?_⟩
          · intro k hk hpos
            have := hpre k hk hpos
            simpa using this
          · rw [if_pos hacc] at h
            by_cases hsum : sumPlain cs ≠ totalPlain
            · rw [if_pos hsum] at h
              exact absurd h (by simp)
            · exact not_not.mp hsum
        · rw [if_neg hacc] at h
          exact absurd h (by simp)
  · intro hname hcap hacc hsum
    rw [hwire, if_neg (toInt64_cap_of_cap hcap),
      if_neg (by rw [hname]; exact Bool.false_ne_true),
      if_pos hacc, if_pos hsum]

def c2nonce : Bytes := List.replicate 12 0

def c2chunks : List (Bytes × Bytes) := [(c2nonce, List.replicate 20 7)]

/-- Witness for C2 at a concrete one-chunk stream whose sealed length is 20
(4 plaintext bytes) against a header declaring 4 and against one declaring
5. -/
theorem C2_upload_accounting_witness :
    ((∀ code' dat blob,
      handleUpload 0 (uploadWire c1code [102] 4 c2chunks.length (toyHash [1]) c2chunks) =
          UploadOutcome.ok code' dat blob →
        (∀ c ∈ c2chunks, 16 ≤ (c.2 : Bytes).length) ∧
        (∀ k < c2chunks.length, 0 < MaxBlobSize →
          ((sumPlain (c2chunks.take (k + 1)) : Nat) : Int) ≤ MaxBlobSize) ∧
        sumPlain c2chunks = 4) ∧
    (nameRejected (truncName [102]) = false →
      ¬(0 < MaxBlobSize ∧ MaxBlobSize < ((4 : Nat) : Int)) →
      accountOk 0 c2chunks = true →
      sumPlain c2chunks ≠ 4 →
      handleUpload 0 (uploadWire c1code [102] 4 c2chunks.length (toyHash [1]) c2chunks) =
        UploadOutcome.errFileRemoved)) ∧
    ((∀ code' dat blob,
      handleUpload 0 (uploadWire c1code [102] 5 c2chunks.length (toyHash [1]) c2chunks) =
          UploadOutcome.ok code' dat blob →
        (∀ c ∈ c2chunks, 16 ≤ (c.2 : Bytes).length) ∧
        (∀ k < c2chunks.length, 0 < MaxBlobSize →
          ((sumPlain (c2chunks.take (k + 1)) : Nat) : Int) ≤ MaxBlobSize) ∧
        sumPlain c2chunks = 5) ∧
    (nameRejected (truncName [102]) = false →
      ¬(0 < MaxBlobSize ∧ MaxBlobSize < ((5 : Nat) : Int)) →
      accountOk 0 c2chunks = true →
      sumPlain c2chunks ≠ 5 →
      handleUpload 0 (uploadWire c1code [102] 5 c2chunks.length (toyHash [1]) c2chunks) =
        UploadOutcome.errFileRemoved)) :=
  ⟨C2_upload_accounting 0 c1code [102] (toyHash [1]) 4 c2chunks (by decide) (by decide)
      (by decide) (by decide) (by decide) (by decide),
    C2_upload_accounting 0 c1code [102] (toyHash [1]) 5 c2chunks (by decide) (by decide)
      (by decide) (by decide) (by decide) (by decide)⟩

/-! ### Claim C3: secure chunked upload (handleSecureUploadChunked) -/

/-- Modelled from the spec: ReadChunkRaw is called by the secure chunked
paths but its definition is not among the files under src/; the spec gives
the per-chunk records of the secure chunked format as identical in shape to
the regular chunked form, so this reads a 12-byte nonce, a 4-byte big-endian
sealed length and that many sealed bytes. -/
def ReadChunkRaw (s : Bytes) : Option ((Bytes × Bytes) × Bytes) :=
  (readBytes 12 s).bind fun pn =>
  (readBE 4 pn.2).bind fun pl =>
  (readBytes pl.1 pl.2).bind fun ps =>
  some ((pn.1, ps.1), ps.2)

/-- Modelled from the spec: ReadSecureUploadChunkedHeader is not among the
files under src/; the spec gives the secure chunked header (format 1) as
nameLen:u16, name, totalPlain:u64, numChunks:u32, checksum:32. -/
def ReadSecureUploadChunkedHeader (s : Bytes) :
    Option ((Bytes × Nat × Nat × Bytes) × Bytes) :=
  (readBE 2 s).bind fun pl =>
  (readBytes pl.1 pl.2).bind fun pn =>
  (readBE 8 pn.2).bind fun pt =>
  (readBE 4 pt.2).bind fun pk =>
  (readBytes 32 pk.2).bind fun pchk =>
  some ((pn.1, pt.1, pk.1, pchk.1), pchk.2)

/-- The per-chunk loop of handleSecureUploadChunked: read a raw chunk and
append nonce, re-encoded sealed length (uint32 of the sealed byte count) and
sealed bytes to the data file. The server performs no sealed-length or
plaintext-count checks here. -/
def secureChunkLoop : Nat → Bytes → Bytes → Option (Bytes × Bytes)
  | 0, dat, s => some (dat, s)
  | n + 1, dat, s =>
    (ReadChunkRaw s).bind fun pc =>
    secureChunkLoop n (dat ++ pc.1.1 ++ be32 pc.1.2.length ++ pc.1.2) pc.2

/-- handleSecureUploadChunked: parse the secure chunked header, check only
the header's declared total against MaxBlobSize (comparing against
int64(totalPlainLen), which wraps at 2^63), reject bad names, stream
numChunks chunks to the data file, and publish with secure and chunked set.
`genCode` is the freshly generated server code (random, passed explicitly).
The counted-plaintext/declared-total comparison of the regular path is
absent from this handler. -/
def handleSecureUploadChunked (now : Int) (genCode : Bytes) (s : Bytes) : UploadOutcome :=
  match ReadSecureUploadChunkedHeader s with
  | none => .errNoFile
  | some ((name, totalPlainLen, numChunks, checksum), s) =>
    if 0 < MaxBlobSize ∧ MaxBlobSize < toInt64 totalPlainLen then .errNoFile
    else if nameRejected name then .errNoFile
    else
      match secureChunkLoop numChunks [] s with
      | none => .errFileRemoved
      | some (dat, _) =>
        .ok genCode dat
          { name := filepathBase name, plaintextChecksum := checksum
            nonce := [], sealed := [], chunks := none
            totalPlainLen := totalPlainLen, numChunks := numChunks
            chunked := true, secure := true, createdAt := now }

/-- The wire layout after the `S` tag and format byte 1: the secure chunked
header followed by the chunk frames (the sender truncates the name, as the
spec states for every sender). -/
def secureChunkedWire (name : Bytes) (totalPlain numChunks : Nat) (checksum : Bytes)
    (cs : List (Bytes × Bytes)) : Bytes :=
  be16 (truncName name).length ++ truncName name ++ be64 totalPlain
    ++ be32 numChunks ++ checksum ++ chunkFrames cs

theorem ReadSecureUploadChunkedHeader_wire (name checksum rest : Bytes)
    (totalPlain numChunks : Nat)
    (hchk : checksum.length = 32) (htp : totalPlain < 2 ^ 64) (hnc : numChunks < 2 ^ 32) :
    ReadSecureUploadChunkedHeader (be16 (truncName name).length ++ truncName name
        ++ be64 totalPlain ++ be32 numChunks ++ checksum ++ rest) =
      some ((truncName name, totalPlain, numChunks, checksum), rest) :=
  ReadEncryptedBlobChunkedHeader_wire name checksum rest totalPlain numChunks hchk htp hnc

/-- The secure chunk loop copies well-formed frames unchanged and performs no
checks. -/
theorem secureChunkLoop_spec (cs : List (Bytes × Bytes)) (dat rest : Bytes)
    (h12 : ∀ c ∈ cs, (c.1 : Bytes).length = 12)
    (hlt : ∀ c ∈ cs, (c.2 : Bytes).length < 2 ^ 32) :
    secureChunkLoop cs.length dat (chunkFrames cs ++ rest) =
      some (dat ++ chunkFrames cs, rest) := by
  induction cs generalizing dat with
  | nil => simp [secureChunkLoop, chunkFrames]
  | cons c cs ih =>
    have hn := h12 c (List.mem_cons_self c cs)
    have hs := hlt c (List.mem_cons_self c cs)
    have hstream : chunkFrames (c :: cs) ++ rest =
        c.1 ++ (be32 c.2.length ++ (c.2 ++ (chunkFrames cs ++ rest))) := by
      simp [chunkFrames_cons, chunkFrame, List.append_assoc]
    have r1 : readBytes 12 (chunkFrames (c :: cs) ++ rest) =
        some (c.1, be32 c.2.length ++ (c.2 ++ (chunkFrames cs ++ rest))) := by
      rw [hstream, ← hn]
      exact readBytes_exact _ _
    rw [List.length_cons, secureChunkLoop, ReadChunkRaw, r1, Option.some_bind]
    rw [readBE32_encode _ _ hs, Option.some_bind]
    rw [readBytes_exact, Option.some_bind, Option.some_bind]
    rw [ih _ (fun x hx => h12 x (List.mem_cons_of_mem c hx))
      (fun x hx => hlt x (List.mem_cons_of_mem c hx))]
    have : dat ++ c.1 ++ be32 c.2.length ++ c.2 ++ chunkFrames cs =
        dat ++ chunkFrames (c :: cs) := by
      simp [chunkFrames_cons, chunkFrame, List.append_assoc]
    rw [this]

def c3checksum : Bytes := List.replicate 32 0

def c3wire : Bytes := secureChunkedWire [102] 999 1 c3checksum c2chunks

/-- C3 counterexample: a secure chunked upload whose single chunk carries 4
plaintext bytes while the header declares 999 is accepted and published with
status OK; no mismatch failure and no data-file deletion occur, contrary to
the claim. -/
theorem C3_counterexample :
    sumPlain c2chunks = 4 ∧ (4 : Nat) ≠ 999 ∧
    handleSecureUploadChunked 0 c1code c3wire =
      UploadOutcome.ok c1code (chunkFrames c2chunks)
        { name := [102], plaintextChecksum := c3checksum
          nonce := [], sealed := [], chunks := none
          totalPlainLen := 999, numChunks := 1
          chunked := true, secure := true, createdAt := 0 } := by
  decide

/-- C3 amended: the secure chunked upload path applies no plaintext-length
accounting. With a well-formed header whose declared total is within
MaxBlobSize and a valid name, any complete chunk sequence is accepted and
published with secure = chunked = true, even when the sum of (sealedLen - 16)
differs from the declared total; the published metadata carries the declared
total unchanged. -/
theorem C3_amended (now : Int) (genCode name checksum : Bytes)
    (totalPlain : Nat) (cs : List (Bytes × Bytes))
    (hchk : checksum.length = 32) (htp : totalPlain < 2 ^ 64) (hnc : cs.length < 2 ^ 32)
    (h12 : ∀ c ∈ cs, (c.1 : Bytes).length = 12)
    (hlt : ∀ c ∈ cs, (c.2 : Bytes).length < 2 ^ 32)
    (hcap : ¬(0 < MaxBlobSize ∧ MaxBlobSize < (totalPlain : Int)))
    (hname : nameRejected (truncName name) = false)
    (hsum : sumPlain cs ≠ totalPlain) :
    handleSecureUploadChunked now genCode
        (secureChunkedWire name totalPlain cs.length checksum cs) =
      UploadOutcome.ok genCode (chunkFrames cs)
        { name := filepathBase (truncName name), plaintextChecksum := checksum
          nonce := [], sealed := [], chunks := none
          totalPlainLen := totalPlain, numChunks := cs.length
          chunked := true, secure := true, createdAt := now } := by
  rw [handleSecureUploadChunked, secureChunkedWire,
    ReadSecureUploadChunkedHeader_wire name checksum _ totalPlain cs.length hchk htp hnc]
  have hloop := secureChunkLoop_spec cs [] [] h12 hlt
  rw [List.append_nil] at hloop
  simp only [if_neg (toInt64_cap_of_cap hcap), hname, Bool.false_eq_true, if_false, hloop,
    List.nil_append]

/-- Witness for the amended C3 at the counterexample's concrete input. -/
theorem C3_amended_witness :
    handleSecureUploadChunked 0 c1code
        (secureChunkedWire [102] 999 c2chunks.length c3checksum c2chunks) =
      UploadOutcome.ok c1code (chunkFrames c2chunks)
        { name := filepathBase (truncName [102]), plaintextChecksum := c3checksum
          nonce := [], sealed := [], chunks := none
          totalPlainLen := 999, numChunks := c2chunks.length
          chunked := true, secure := true, createdAt := 0 } :=
  C3_amended 0 c1code [102] c3checksum 999 c2chunks (by decide) (by decide) (by decide)
    (by decide) (by decide) (by decide) (by decide) (by decide)

/-! ### Claim C4: start-up orphan recovery (removeOrphanBlobs) -/

/-- Does `l` end with `suffix`? (strings.HasSuffix on byte strings). -/
def endsWithB (suffix l : Bytes) : Bool := leadsB suffix.reverse l.reverse

/-- The bytes of ".blob". -/
def dotBlob : Bytes := [46, 98, 108, 111, 98]

/-- The bytes of ".dat". -/
def dotDat : Bytes := [46, 100, 97, 116]

/-- removeOrphanBlobs: walk the data directory; skip directories (not
modelled), skip any file whose name neither ends in ".blob" nor in ".dat" or
whose name length differs from CodeLength + 5, take the first CodeLength
bytes of the rest as the code, and remove the file when that code is not in
the index. Returns the file names still on disk afterwards. -/
def removeOrphanBlobs (index : List Bytes) (files : List Bytes) : List Bytes :=
  files.filter fun name =>
    if (!endsWithB dotBlob name && !endsWithB dotDat name)
        || (name.length != CodeLength + 5) then true
    else index.contains (name.take CodeLength)

/-- The byte string "123456.dat". -/
def c4datName : Bytes := [49, 50, 51, 52, 53, 54, 46, 100, 97, 116]

/-- The byte string "123456.blob". -/
def c4blobName : Bytes := [49, 50, 51, 52, 53, 54, 46, 98, 108, 111, 98]

/-- C4 (code bug): with an empty index, the orphan file "123456.blob" is
removed by start-up recovery but the orphan file "123456.dat" survives it:
the filter requires the name length to be CodeLength + 5 = 11, which only
".blob" names of 6-character codes can satisfy, so the ".dat" suffix check
is unreachable and orphan data files are never deleted. -/
theorem C4_orphan_dat_kept :
    removeOrphanBlobs [] [c4datName, c4blobName] = [c4datName] ∧
    endsWithB dotDat c4datName = true ∧
    c4datName.length = 10 ∧ CodeLength + 5 = 11 := by
  decide

/-! ### Claim C5: the expiry boundary on download -/

def c5blob : StoredBlob :=
  { name := [102], plaintextChecksum := c3checksum
    nonce := List.replicate 12 0, sealed := List.replicate 20 7, chunks := none
    totalPlainLen := 0, numChunks := 0
    chunked := false, secure := false, createdAt := 0 }

def c5store : Store := ⟨[(c1code, 0)], [(c1code, c5blob)], []⟩

/-- C5 counterexample: a download arriving when the blob's createdAt is
exactly StorageDuration old is still served with status OK (the staleness
checks use a strict comparison), not answered with NotFound as the claim
states. -/
theorem C5_counterexample :
    Store.get c5store StorageDuration c1code = some c5blob ∧
    handleDownload c5store StorageDuration true c1code =
      DownloadResp.ok 0 (WriteEncryptedBlob c5blob.name c5blob.plaintextChecksum
        c5blob.nonce c5blob.sealed) := by
  decide

theorem handleDownload_notFound (st : Store) (now : Int) (code : Bytes)
    (hcode : code.length = CodeLength) (hget : st.get now code = none) :
    handleDownload st now true code = DownloadResp.status StatusNotFound := by
  rw [handleDownload]
  simp only [Bool.not_true, Bool.false_eq_true, if_false]
  rw [← hcode, readBytes_all]
  simp only [hget]

/-- handleDownload on an allowed request for a fresh stored single-blob
record (not secure, not chunked, no legacy chunks): format byte 0 and the
single-blob payload. -/
theorem handleDownload_single (st : Store) (now : Int) (code : Bytes)
    (blob : StoredBlob) (hcode : code.length = CodeLength)
    (hget : st.get now code = some blob)
    (hfresh : ¬ StorageDuration < now - blob.createdAt)
    (hsec : blob.secure = false) (hch : blob.chunked = false)
    (hleg : blob.chunks = none) :
    handleDownload st now true code = DownloadResp.ok 0
      (WriteEncryptedBlob blob.name blob.plaintextChecksum blob.nonce blob.sealed) := by
  rw [handleDownload]
  simp only [Bool.not_true, Bool.false_eq_true, if_false]
  rw [← hcode, readBytes_all]
  simp only [hget, hsec, hch, hleg, if_neg hfresh, Bool.false_and,
    Bool.false_eq_true, if_false]

/-- C5 amended: a download of a code whose createdAt is strictly more than
StorageDuration old reads as not found and is answered NotFound; at an age
of exactly StorageDuration the staleness comparison (a strict one) does not
fire, and a stored single-blob record is still served with status OK. -/
theorem C5_amended (st st' : Store) (code code' : Bytes) (t now now' : Int)
    (blob' : StoredBlob)
    (hcode : code.length = CodeLength)
    (hidx : alGet st.index code = some t)
    (hstale : StorageDuration < now - t)
    (hcode' : code'.length = CodeLength)
    (hidx' : alGet st'.index code' = some (now' - StorageDuration))
    (hblob' : alGet st'.blobs code' = some blob')
    (hcreated : blob'.createdAt = now' - StorageDuration)
    (hsec : blob'.secure = false) (hch : blob'.chunked = false)
    (hleg : blob'.chunks = none) :
    (st.get now code = none ∧
      handleDownload st now true code = DownloadResp.status StatusNotFound) ∧
    handleDownload st' now' true code' = DownloadResp.ok 0
      (WriteEncryptedBlob blob'.name blob'.plaintextChecksum blob'.nonce blob'.sealed) := by
  have hget : st.get now code = none := by
    rw [Store.get, hidx, Option.some_bind, if_pos hstale]
  refine ⟨⟨hget, handleDownload_notFound st now code hcode hget⟩, ?_⟩
  have hget' : st'.get now' code' = some blob' := by
    rw [Store.get, hidx', Option.some_bind, if_neg (by omega), hblob']
  exact handleDownload_single st' now' code' blob' hcode' hget'
    (by rw [hcreated]; omega) hsec hch hleg

/-- Witness for the amended C5 at concrete stores and instants. -/
theorem C5_amended_witness :
    ((⟨[(c1code, 0)], [(c1code, c5blob)], []⟩ : Store).get (StorageDuration + 1) c1code
        = none ∧
      handleDownload ⟨[(c1code, 0)], [(c1code, c5blob)], []⟩ (StorageDuration + 1) true
        c1code = DownloadResp.status StatusNotFound) ∧
    handleDownload c5store StorageDuration true c1code = DownloadResp.ok 0
      (WriteEncryptedBlob c5blob.name c5blob.plaintextChecksum c5blob.nonce
        c5blob.sealed) :=
  C5_amended ⟨[(c1code, 0)], [(c1code, c5blob)], []⟩ c5store c1code c1code 0
    (StorageDuration + 1) StorageDuration c5blob
    (by decide) (by decide) (by decide) (by decide) (by decide) (by decide)
    (by decide) (by decide) (by decide) (by decide)

/-! ### Claim C6: the size cap across the upload formats -/

inductive SecureReadErr where
  | short
  | blobTooLarge
deriving DecidableEq, Repr

/-- ReadSecureUpload: the secure single-blob upload body (no code): nameLen,
name, checksum:32, nonce:12, sealedLen:u64, sealed. A sealedLen above
maxSealed is rejected with ErrBlobTooLarge before the sealed bytes are read;
short reads are the other error. -/
def ReadSecureUpload (maxSealed : Int) (s : Bytes) :
    Except SecureReadErr ((Bytes × Bytes × Bytes × Bytes) × Bytes) :=
  match readBE 2 s with
  | none => .error .short
  | some (nameLen, s) =>
  match readBytes nameLen s with
  | none => .error .short
  | some (name, s) =>
  match readBytes 32 s with
  | none => .error .short
  | some (checksum, s) =>
  match readBytes 12 s with
  | none => .error .short
  | some (nonce, s) =>
  match readBE 8 s with
  | none => .error .short
  | some (sealedLen, s) =>
  if 0 < maxSealed ∧ maxSealed < (sealedLen : Int) then .error .blobTooLarge
  else
    match readBytes sealedLen s with
    | none => .error .short
    | some (sealed, s) => .ok ((name, checksum, nonce, sealed), s)

/-- handleSecureUpload with format byte 0 (single blob): read the record
capped at MaxBlobSize, reject bad names, and publish with secure = true and
chunked = false under the freshly generated code; any read error (including
blob-too-large) is the generic error status, and this path never creates a
data file (the dat component of the ok outcome is empty). -/
def handleSecureUploadSingle (now : Int) (genCode : Bytes) (s : Bytes) : UploadOutcome :=
  match ReadSecureUpload MaxBlobSize s with
  | .error _ => .errNoFile
  | .ok ((name, checksum, nonce, sealed), _) =>
    if nameRejected name then .errNoFile
    else .ok genCode []
      { name := filepathBase name, plaintextChecksum := checksum
        nonce := nonce, sealed := sealed, chunks := none
        totalPlainLen := 0, numChunks := 0
        chunked := false, secure := true, createdAt := now }

/-- handleSecureUpload: read the format byte and dispatch to the chunked
(format 1) or single-blob (any other value) path. -/
def handleSecureUpload (now : Int) (genCode : Bytes) (s : Bytes) : UploadOutcome :=
  match readBytes 1 s with
  | none => .errNoFile
  | some (fmt, s) =>
    if fmt = [1] then handleSecureUploadChunked now genCode s
    else handleSecureUploadSingle now genCode s

/-- ReadSecureUpload applied to a well-formed single-blob body. -/
theorem ReadSecureUpload_wire (maxSealed : Int) (name checksum nonce sealed rest : Bytes)
    (hchk : checksum.length = 32) (hnon : nonce.length = 12)
    (hlen : sealed.length < 2 ^ 64) :
    ReadSecureUpload maxSealed (WriteEncryptedBlob name checksum nonce sealed ++ rest) =
      if 0 < maxSealed ∧ maxSealed < (sealed.length : Int) then .error .blobTooLarge
      else .ok ((truncName name, checksum, nonce, sealed), rest) := by
  have hsplit : WriteEncryptedBlob name checksum nonce sealed ++ rest =
      be16 (truncName name).length ++ (truncName name ++ (checksum ++ (nonce
        ++ (be64 sealed.length ++ (sealed ++ rest))))) := by
    simp [WriteEncryptedBlob, List.append_assoc]
  have r1 : readBytes 32 (checksum ++ (nonce ++ (be64 sealed.length ++ (sealed ++ rest)))) =
      some (checksum, nonce ++ (be64 sealed.length ++ (sealed ++ rest))) := by
    rw [← hchk]
    exact readBytes_exact _ _
  have r2 : readBytes 12 (nonce ++ (be64 sealed.length ++ (sealed ++ rest))) =
      some (nonce, be64 sealed.length ++ (sealed ++ rest)) := by
    rw [← hnon]
    exact readBytes_exact _ _
  rw [ReadSecureUpload, hsplit]
  simp only [readBE16_encode _ _ (truncName_length_lt name), readBytes_exact,
    r1, r2, readBE64_encode _ _ hlen]

/-- handleSecureUploadSingle applied to a well-formed single-blob body with a
valid name. -/
theorem handleSecureUploadSingle_wire (now : Int) (genCode name checksum nonce sealed : Bytes)
    (hchk : checksum.length = 32) (hnon : nonce.length = 12)
    (hlen : sealed.length < 2 ^ 64)
    (hname : nameRejected (truncName name) = false) :
    handleSecureUploadSingle now genCode (WriteEncryptedBlob name checksum nonce sealed) =
      if 0 < MaxBlobSize ∧ MaxBlobSize < (sealed.length : Int) then .errNoFile
      else .ok genCode []
        { name := filepathBase (truncName name), plaintextChecksum := checksum
          nonce := nonce, sealed := sealed, chunks := none
          totalPlainLen := 0, numChunks := 0
          chunked := false, secure := true, createdAt := now } := by
  have hwire := ReadSecureUpload_wire MaxBlobSize name checksum nonce sealed [] hchk hnon hlen
  rw [List.append_nil] at hwire
  rw [handleSecureUploadSingle, hwire]
  by_cases hcap : 0 < MaxBlobSize ∧ MaxBlobSize < (sealed.length : Int)
  · rw [if_pos hcap, if_pos hcap]
  · rw [if_neg hcap, if_neg hcap]
    simp only [hname, Bool.false_eq_true, if_false]

/-- handleSecureUploadChunked applied to a well-formed secure chunked wire
with a valid name and a declared total within the cap accepts and publishes
the blob; the chunk sums are never consulted. -/
theorem handleSecureUploadChunked_wire (now : Int) (genCode name checksum : Bytes)
    (totalPlain : Nat) (cs : List (Bytes × Bytes))
    (hchk : checksum.length = 32) (htp : totalPlain < 2 ^ 64) (hnc : cs.length < 2 ^ 32)
    (h12 : ∀ c ∈ cs, (c.1 : Bytes).length = 12)
    (hlt : ∀ c ∈ cs, (c.2 : Bytes).length < 2 ^ 32) :
    handleSecureUploadChunked now genCode
        (secureChunkedWire name totalPlain cs.length checksum cs) =
      if 0 < MaxBlobSize ∧ MaxBlobSize < toInt64 totalPlain then .errNoFile
      else if nameRejected (truncName name) then .errNoFile
      else UploadOutcome.ok genCode (chunkFrames cs)
        { name := filepathBase (truncName name), plaintextChecksum := checksum
          nonce := [], sealed := [], chunks := none
          totalPlainLen := totalPlain, numChunks := cs.length
          chunked := true, secure := true, createdAt := now } := by
  rw [handleSecureUploadChunked, secureChunkedWire,
    ReadSecureUploadChunkedHeader_wire name checksum _ totalPlain cs.length hchk htp hnc]
  by_cases hcap : 0 < MaxBlobSize ∧ MaxBlobSize < toInt64 totalPlain
  · simp only [if_pos hcap]
  · by_cases hname : nameRejected (truncName name)
    · simp [if_neg hcap, hname]
    · have hloop := secureChunkLoop_spec cs [] [] h12 hlt
      rw [List.append_nil] at hloop
      simp only [if_neg hcap, hname, Bool.false_eq_true, if_false, hloop,
        List.nil_append]

/-- A sealed buffer of MaxBlobSize + 10 bytes: its plaintext (sealed minus
the 16-byte tag) is MaxBlobSize - 6 bytes, within the cap. -/
def c6sealed : Bytes := List.replicate 16106127370 0

def c6wire : Bytes :=
  be16 1 ++ [102] ++ c3checksum ++ List.replicate 12 0 ++ be64 16106127370 ++ c6sealed

/-- C6 counterexample: a secure single-blob upload whose total plaintext is
MaxBlobSize - 6 bytes (within the cap) is rejected as blob-too-large,
because the check compares the sealed length (plaintext + 16) against
MaxBlobSize; the cap is not enforced on plaintext length in this format. -/
theorem C6_counterexample :
    ((16106127370 - 16 : Nat) : Int) ≤ MaxBlobSize ∧
    c6sealed.length = (16106127370 - 16) + 16 ∧
    ReadSecureUpload MaxBlobSize c6wire = Except.error SecureReadErr.blobTooLarge ∧
    handleSecureUploadSingle 0 c1code c6wire = UploadOutcome.errNoFile := by
  refine ⟨by decide, ?_, rfl, rfl⟩
  rw [c6sealed, List.length_replicate]

/-- C6 amended: how the size cap is enforced in each upload format. Regular
chunked: a declared-equals-actual total within MaxBlobSize is accepted; a
total above it whose int64 conversion is still positive (total below 2^63)
is rejected at the header with the generic error status before any file is
created; a total at or above 2^63 wraps negative in the header's int64
comparison and slips past it, but the per-chunk accounting then rejects the
stream mid-way, so the outcome is the created-then-deleted data file. Secure
single-blob: the cap is enforced on the sealed length (plaintext + 16
bytes), by an unsigned comparison that never wraps: accepted exactly when
the sealed length is within MaxBlobSize, so plaintexts just under the cap
are rejected. Secure chunked: the header's int64 comparison is the only
check, so a total in (MaxBlobSize, 2^63) is rejected with no files, while a
total at or above 2^63 wraps negative, passes the check, and the upload is
published with status OK - the cap is bypassed entirely. -/
theorem C6_size_cap (now : Int) (genCode code name checksum nonce sealed : Bytes)
    (cs : List (Bytes × Bytes))
    (hcode : code.length = CodeLength) (hchk : checksum.length = 32)
    (hnon : nonce.length = 12)
    (hnc : cs.length < 2 ^ 32)
    (h12 : ∀ c ∈ cs, (c.1 : Bytes).length = 12)
    (hge : ∀ c ∈ cs, 16 ≤ (c.2 : Bytes).length)
    (hlt : ∀ c ∈ cs, (c.2 : Bytes).length < 2 ^ 32)
    (hsum64 : sumPlain cs < 2 ^ 64)
    (hslen64 : sealed.length < 2 ^ 64)
    (hname : nameRejected (truncName name) = false) :
    (((sumPlain cs : Int) ≤ MaxBlobSize →
        ∃ blob, handleUpload now (uploadWire code name (sumPlain cs) cs.length checksum cs) =
          UploadOutcome.ok code (chunkFrames cs) blob) ∧
      (MaxBlobSize < (sumPlain cs : Int) → sumPlain cs < 2 ^ 63 →
        handleUpload now (uploadWire code name (sumPlain cs) cs.length checksum cs) =
          UploadOutcome.errNoFile) ∧
      (2 ^ 63 ≤ sumPlain cs →
        handleUpload now (uploadWire code name (sumPlain cs) cs.length checksum cs) =
          UploadOutcome.errFileRemoved)) ∧
    (((sealed.length : Int) ≤ MaxBlobSize →
        ∃ blob, handleSecureUploadSingle now genCode
            (WriteEncryptedBlob name checksum nonce sealed) =
          UploadOutcome.ok genCode [] blob) ∧
      (MaxBlobSize < (sealed.length : Int) →
        ReadSecureUpload MaxBlobSize (WriteEncryptedBlob name checksum nonce sealed) =
          Except.error SecureReadErr.blobTooLarge ∧
        handleSecureUploadSingle now genCode
            (WriteEncryptedBlob name checksum nonce sealed) =
          UploadOutcome.errNoFile)) ∧
    (((sumPlain cs : Int) ≤ MaxBlobSize →
        ∃ blob, handleSecureUploadChunked now genCode
            (secureChunkedWire name (sumPlain cs) cs.length checksum cs) =
          UploadOutcome.ok genCode (chunkFrames cs) blob) ∧
      (MaxBlobSize < (sumPlain cs : Int) → sumPlain cs < 2 ^ 63 →
        handleSecureUploadChunked now genCode
            (secureChunkedWire name (sumPlain cs) cs.length checksum cs) =
          UploadOutcome.errNoFile) ∧
      (2 ^ 63 ≤ sumPlain cs →
        ∃ blob, handleSecureUploadChunked now genCode
            (secureChunkedWire name (sumPlain cs) cs.length checksum cs) =
          UploadOutcome.ok genCode (chunkFrames cs) blob)) := by
  have hMpos : (0 : Int) < MaxBlobSize := by norm_num [MaxBlobSize]
  have hwire := handleUpload_wire now code name checksum (sumPlain cs) cs
    hcode hchk hsum64 hnc h12 hlt
  have hsingle := handleSecureUploadSingle_wire now genCode name checksum nonce sealed
    hchk hnon hslen64 hname
  have hchunked := handleSecureUploadChunked_wire now genCode name checksum (sumPlain cs)
    cs hchk hsum64 hnc h12 hlt
  refine ⟨⟨?_, ?_, ?_⟩, ⟨?_, ?_⟩, ⟨?_, ?_, ?_⟩⟩
  · intro hle
    have hcap : ¬(0 < MaxBlobSize ∧ MaxBlobSize < toInt64 (sumPlain cs)) :=
      toInt64_cap_of_cap (by rintro ⟨-, h⟩; exact absurd h (not_lt.mpr hle))
    have hacc : accountOk 0 cs = true :=
      accountOk_of_le cs 0 hge (by rw [Nat.zero_add]; exact hle)
    exact ⟨{ name := filepathBase (truncName name), plaintextChecksum := checksum
             nonce := [], sealed := [], chunks := none
             totalPlainLen := sumPlain cs, numChunks := cs.length
             chunked := true, secure := false, createdAt := now },
      by rw [hwire, if_neg hcap, if_neg (by rw [hname]; exact Bool.false_ne_true),
        if_pos hacc, if_neg (by exact fun h => h rfl)]⟩
  · intro hgt h63
    have hcap : 0 < MaxBlobSize ∧ MaxBlobSize < toInt64 (sumPlain cs) := by
      rw [toInt64_of_lt _ h63]
      exact ⟨hMpos, hgt⟩
    rw [hwire, if_pos hcap]
  · intro h63
    have hneg := toInt64_neg_of_ge (sumPlain cs) h63 hsum64
    have hcap : ¬(0 < MaxBlobSize ∧ MaxBlobSize < toInt64 (sumPlain cs)) := by
      rintro ⟨-, h⟩
      linarith
    have hacc : accountOk 0 cs = false := by
      apply accountOk_false_of_gt cs 0 (by simpa using le_of_lt hMpos)
      rw [Nat.zero_add]
      have h63' : ((2 : Int) ^ 63) ≤ (sumPlain cs : Int) := by exact_mod_cast h63
      have hMlt : MaxBlobSize < (2 : Int) ^ 63 := by norm_num [MaxBlobSize]
      linarith
    rw [hwire, if_neg hcap, if_neg (by rw [hname]; exact Bool.false_ne_true),
      if_neg (by rw [hacc]; exact Bool.false_ne_true)]
  · intro hle
    have hcap : ¬(0 < MaxBlobSize ∧ MaxBlobSize < (sealed.length : Int)) := by
      rintro ⟨-, h⟩
      exact absurd h (not_lt.mpr hle)
    exact ⟨{ name := filepathBase (truncName name), plaintextChecksum := checksum
             nonce := nonce, sealed := sealed, chunks := none
             totalPlainLen := 0, numChunks := 0
             chunked := false, secure := true, createdAt := now },
      by rw [hsingle, if_neg hcap]⟩
  · intro hgt
    constructor
    · have hwireS := ReadSecureUpload_wire MaxBlobSize name checksum nonce sealed []
        hchk hnon hslen64
      rw [List.append_nil] at hwireS
      rw [hwireS, if_pos ⟨hMpos, hgt⟩]
    · rw [hsingle, if_pos ⟨hMpos, hgt⟩]
  · intro hle
    have hcap : ¬(0 < MaxBlobSize ∧ MaxBlobSize < toInt64 (sumPlain cs)) :=
      toInt64_cap_of_cap (by rintro ⟨-, h⟩; exact absurd h (not_lt.mpr hle))
    exact ⟨{ name := filepathBase (truncName name), plaintextChecksum := checksum
             nonce := [], sealed := [], chunks := none
             totalPlainLen := sumPlain cs, numChunks := cs.length
             chunked := true, secure := true, createdAt := now },
      by rw [hchunked, if_neg hcap, if_neg (by rw [hname]; exact Bool.false_ne_true)]⟩
  · intro hgt h63
    have hcap : 0 < MaxBlobSize ∧ MaxBlobSize < toInt64 (sumPlain cs) := by
      rw [toInt64_of_lt _ h63]
      exact ⟨hMpos, hgt⟩
    rw [hchunked, if_pos hcap]
  · intro h63
    have hneg := toInt64_neg_of_ge (sumPlain cs) h63 hsum64
    have hcap : ¬(0 < MaxBlobSize ∧ MaxBlobSize < toInt64 (sumPlain cs)) := by
      rintro ⟨-, h⟩
      linarith
    exact ⟨{ name := filepathBase (truncName name), plaintextChecksum := checksum
             nonce := [], sealed := [], chunks := none
             totalPlainLen := sumPlain cs, numChunks := cs.length
             chunked := true, secure := true, createdAt := now },
      by rw [hchunked, if_neg hcap, if_neg (by rw [hname]; exact Bool.false_ne_true)]⟩

/-- A chunk of maximal frame size: a 12-byte nonce and 2^32 - 1 sealed
bytes. -/
def c6bigChunk : Bytes × Bytes := (List.replicate 12 0, List.replicate (2 ^ 32 - 1) 0)

/-- 2^31 + 10 maximal chunks: their total plaintext is at least 2^63, so a
declared total equal to it wraps negative in the headers' int64
comparison. -/
def c6bigChunks : List (Bytes × Bytes) := List.replicate (2 ^ 31 + 10) c6bigChunk

theorem sumPlain_replicate (n : Nat) (c : Bytes × Bytes) :
    sumPlain (List.replicate n c) = n * (c.2.length - 16) := by
  induction n with
  | zero => simp [sumPlain]
  | succ n ih =>
    rw [List.replicate_succ, sumPlain_cons, ih]
    ring

theorem c6bigChunk_len2 : (c6bigChunk.2 : Bytes).length = 2 ^ 32 - 1 :=
  List.length_replicate _ _

theorem c6bigChunks_ge : 2 ^ 63 ≤ sumPlain c6bigChunks := by
  rw [c6bigChunks, sumPlain_replicate, c6bigChunk_len2]
  norm_num

theorem c6bigChunks_lt64 : sumPlain c6bigChunks < 2 ^ 64 := by
  rw [c6bigChunks, sumPlain_replicate, c6bigChunk_len2]
  norm_num

theorem c6bigChunks_len : c6bigChunks.length < 2 ^ 32 := by
  rw [c6bigChunks]
  norm_num

theorem c6bigChunks_h12 : ∀ c ∈ c6bigChunks, (c.1 : Bytes).length = 12 := by
  intro c hc
  rw [c6bigChunks] at hc
  rw [List.eq_of_mem_replicate hc]
  norm_num [c6bigChunk]

theorem c6bigChunks_hge : ∀ c ∈ c6bigChunks, 16 ≤ (c.2 : Bytes).length := by
  intro c hc
  rw [c6bigChunks] at hc
  rw [List.eq_of_mem_replicate hc]
  norm_num [c6bigChunk]

theorem c6bigChunks_hlt : ∀ c ∈ c6bigChunks, (c.2 : Bytes).length < 2 ^ 32 := by
  intro c hc
  rw [c6bigChunks] at hc
  rw [List.eq_of_mem_replicate hc]
  norm_num [c6bigChunk]

/-- Witness for the amended C6: first at a concrete small upload in each
format, then at a chunk list whose total plaintext is at least 2^63, where
the regular chunked path fails mid-stream and the secure chunked path
publishes with OK despite the cap. -/
theorem C6_size_cap_witness :
    (((((sumPlain c2chunks : Nat) : Int) ≤ MaxBlobSize →
        ∃ blob, handleUpload 0 (uploadWire c1code [102] (sumPlain c2chunks)
            c2chunks.length c3checksum c2chunks) =
          UploadOutcome.ok c1code (chunkFrames c2chunks) blob) ∧
      (MaxBlobSize < ((sumPlain c2chunks : Nat) : Int) → sumPlain c2chunks < 2 ^ 63 →
        handleUpload 0 (uploadWire c1code [102] (sumPlain c2chunks)
            c2chunks.length c3checksum c2chunks) =
          UploadOutcome.errNoFile) ∧
      (2 ^ 63 ≤ sumPlain c2chunks →
        handleUpload 0 (uploadWire c1code [102] (sumPlain c2chunks)
            c2chunks.length c3checksum c2chunks) =
          UploadOutcome.errFileRemoved)) ∧
    ((((List.replicate 20 7 : Bytes).length : Int) ≤ MaxBlobSize →
        ∃ blob, handleSecureUploadSingle 0 c1code
            (WriteEncryptedBlob [102] c3checksum (List.replicate 12 0)
              (List.replicate 20 7)) =
          UploadOutcome.ok c1code [] blob) ∧
      (MaxBlobSize < (((List.replicate 20 7 : Bytes)).length : Int) →
        ReadSecureUpload MaxBlobSize (WriteEncryptedBlob [102] c3checksum
            (List.replicate 12 0) (List.replicate 20 7)) =
          Except.error SecureReadErr.blobTooLarge ∧
        handleSecureUploadSingle 0 c1code
            (WriteEncryptedBlob [102] c3checksum (List.replicate 12 0)
              (List.replicate 20 7)) =
          UploadOutcome.errNoFile)) ∧
    ((((sumPlain c2chunks : Nat) : Int) ≤ MaxBlobSize →
        ∃ blob, handleSecureUploadChunked 0 c1code
            (secureChunkedWire [102] (sumPlain c2chunks) c2chunks.length c3checksum
              c2chunks) =
          UploadOutcome.ok c1code (chunkFrames c2chunks) blob) ∧
      (MaxBlobSize < ((sumPlain c2chunks : Nat) : Int) → sumPlain c2chunks < 2 ^ 63 →
        handleSecureUploadChunked 0 c1code
            (secureChunkedWire [102] (sumPlain c2chunks) c2chunks.length c3checksum
              c2chunks) =
          UploadOutcome.errNoFile) ∧
      (2 ^ 63 ≤ sumPlain c2chunks →
        ∃ blob, handleSecureUploadChunked 0 c1code
            (secureChunkedWire [102] (sumPlain c2chunks) c2chunks.length c3checksum
              c2chunks) =
          UploadOutcome.ok c1code (chunkFrames c2chunks) blob))) ∧
    (((((sumPlain c6bigChunks : Nat) : Int) ≤ MaxBlobSize →
        ∃ blob, handleUpload 0 (uploadWire c1code [102] (sumPlain c6bigChunks)
            c6bigChunks.length c3checksum c6bigChunks) =
          UploadOutcome.ok c1code (chunkFrames c6bigChunks) blob) ∧
      (MaxBlobSize < ((sumPlain c6bigChunks : Nat) : Int) →
        sumPlain c6bigChunks < 2 ^ 63 →
        handleUpload 0 (uploadWire c1code [102] (sumPlain c6bigChunks)
            c6bigChunks.length c3checksum c6bigChunks) =
          UploadOutcome.errNoFile) ∧
      (2 ^ 63 ≤ sumPlain c6bigChunks →
        handleUpload 0 (uploadWire c1code [102] (sumPlain c6bigChunks)
            c6bigChunks.length c3checksum c6bigChunks) =
          UploadOutcome.errFileRemoved)) ∧
    ((((List.replicate 20 7 : Bytes).length : Int) ≤ MaxBlobSize →
        ∃ blob, handleSecureUploadSingle 0 c1code
            (WriteEncryptedBlob [102] c3checksum (List.replicate 12 0)
              (List.replicate 20 7)) =
          UploadOutcome.ok c1code [] blob) ∧
      (MaxBlobSize < (((List.replicate 20 7 : Bytes)).length : Int) →
        ReadSecureUpload MaxBlobSize (WriteEncryptedBlob [102] c3checksum
            (List.replicate 12 0) (List.replicate 20 7)) =
          Except.error SecureReadErr.blobTooLarge ∧
        handleSecureUploadSingle 0 c1code
            (WriteEncryptedBlob [102] c3checksum (List.replicate 12 0)
              (List.replicate 20 7)) =
          UploadOutcome.errNoFile)) ∧
    ((((sumPlain c6bigChunks : Nat) : Int) ≤ MaxBlobSize →
        ∃ blob, handleSecureUploadChunked 0 c1code
            (secureChunkedWire [102] (sumPlain c6bigChunks) c6bigChunks.length
              c3checksum c6bigChunks) =
          UploadOutcome.ok c1code (chunkFrames c6bigChunks) blob) ∧
      (MaxBlobSize < ((sumPlain c6bigChunks : Nat) : Int) →
        sumPlain c6bigChunks < 2 ^ 63 →
        handleSecureUploadChunked 0 c1code
            (secureChunkedWire [102] (sumPlain c6bigChunks) c6bigChunks.length
              c3checksum c6bigChunks) =
          UploadOutcome.errNoFile) ∧
      (2 ^ 63 ≤ sumPlain c6bigChunks →
        ∃ blob, handleSecureUploadChunked 0 c1code
            (secureChunkedWire [102] (sumPlain c6bigChunks) c6bigChunks.length
              c3checksum c6bigChunks) =
          UploadOutcome.ok c1code (chunkFrames c6bigChunks) blob))) :=
  ⟨C6_size_cap 0 c1code c1code [102] c3checksum (List.replicate 12 0)
      (List.replicate 20 7) c2chunks (by decide) (by decide) (by decide) (by decide)
      (by decide) (by decide) (by decide) (by decide) (by decide) (by decide),
    C6_size_cap 0 c1code c1code [102] c3checksum (List.replicate 12 0)
      (List.replicate 20 7) c6bigChunks (by decide) (by decide) (by decide)
      c6bigChunks_len c6bigChunks_h12 c6bigChunks_hge c6bigChunks_hlt
      c6bigChunks_lt64 (by decide) (by decide)⟩

/-! ### Claim C7: the per-IP rate limiter (allow, server.go:307) -/

/-- The rate limiter state and configuration: per-IP attempt counters with
their window starts, per-IP ban expiries, and the parameters max attempts per
window and ban duration. -/
structure RateLimiter where
  attempts : List (String × (Nat × Int))
  banned : List (String × Int)
  max : Nat
  window : Int
  ban : Int

def newRateLimiter (maxAttempts : Nat) (window ban : Int) : RateLimiter :=
  ⟨[], [], maxAttempts, window, ban⟩

/-- The body of allow after the ban check: take the counter entry, starting a
fresh window when there is none or the window has passed; increment the
count; when it exceeds max, ban the IP until now + ban and drop the counter,
denying; otherwise store the counter and allow. -/
def allowCore (rl : RateLimiter) (ip : String) (now : Int) : Bool × RateLimiter :=
  let e :=
    match alGet rl.attempts ip with
    | some (c, ws) => if rl.window < now - ws then (0, now) else (c, ws)
    | none => (0, now)
  if rl.max < e.1 + 1 then
    (false, ⟨alErase rl.attempts ip, (ip, now + rl.ban) :: alErase rl.banned ip,
      rl.max, rl.window, rl.ban⟩)
  else
    (true, ⟨(ip, (e.1 + 1, e.2)) :: alErase rl.attempts ip, rl.banned,
      rl.max, rl.window, rl.ban⟩)

/-- allow: a banned IP with an unexpired ban is denied with no state change;
an expired ban is cleared and the call falls through to the counter logic. -/
def allow (rl : RateLimiter) (ip : String) (now : Int) : Bool × RateLimiter :=
  match alGet rl.banned ip with
  | some u =>
    if now < u then (false, rl)
    else allowCore ⟨rl.attempts, alErase rl.banned ip, rl.max, rl.window, rl.ban⟩ ip now
  | none => allowCore rl ip now

/-- A sequence of allow calls for one IP at the given instants; returns the
final state and the verdicts in order. -/
def allowRun (rl : RateLimiter) (ip : String) : List Int → RateLimiter × List Bool
  | [] => (rl, [])
  | t :: ts =>
    let r := allow rl ip t
    let rest := allowRun r.2 ip ts
    (rest.1, r.1 :: rest.2)

def countTrue : List Bool → Nat
  | [] => 0
  | b :: bs => (if b then 1 else 0) + countTrue bs

/-- Joint invariant for a run of allow calls from one IP whose instants all
lie within one window [t0, t0 + window], when the window is shorter than the
ban: while counting, the number of allowed calls plus the current count never
passes max; once banned, every remaining call in the window is denied. -/
theorem allowRun_aux (ip : String) (t0 window ban : Int) (maxA : Nat)
    (hwb : window < ban) :
    ∀ ts : List Int, (∀ t ∈ ts, t0 ≤ t ∧ t ≤ t0 + window) →
      ((∀ (attempts : List (String × (Nat × Int))) (banned : List (String × Int))
          (c : Nat),
        alGet banned ip = none →
        ((alGet attempts ip = none ∧ c = 0) ∨
          ∃ ws, alGet attempts ip = some (c, ws) ∧ t0 ≤ ws) →
        c ≤ maxA →
        countTrue (allowRun ⟨attempts, banned, maxA, window, ban⟩ ip ts).2 + c ≤ maxA) ∧
      (∀ (attempts : List (String × (Nat × Int))) (banned : List (String × Int))
          (u : Int),
        alGet banned ip = some u →
        (∀ t ∈ ts, t < u) →
        countTrue (allowRun ⟨attempts, banned, maxA, window, ban⟩ ip ts).2 = 0)) := by
  intro ts
  induction ts with
  | nil =>
    intro _
    exact ⟨fun _ _ c _ _ hc => by simpa [allowRun, countTrue] using hc,
      fun _ _ _ _ _ => by simp [allowRun, countTrue]⟩
  | cons t ts ih =>
    intro hts
    have hbound := hts t (List.mem_cons_self t ts)
    have hrest : ∀ x ∈ ts, t0 ≤ x ∧ x ≤ t0 + window :=
      fun x hx => hts x (List.mem_cons_of_mem t hx)
    obtain ⟨ihA, ihB⟩ := ih hrest
    constructor
    · intro attempts banned c hB hA hc
      rw [allowRun]
      simp only [allow, hB]
      rcases hA with ⟨hnone, rfl⟩ | ⟨ws, hsome, hws⟩
      · simp only [allowCore, hnone]
        by_cases hover : maxA < 0 + 1
        · rw [if_pos hover]
          have hz := ihB (alErase attempts ip) ((ip, t + ban) :: alErase banned ip)
            (t + ban) (alGet_cons_self _ _ _)
            (fun x hx => by
              obtain ⟨h1, h2⟩ := hrest x hx
              omega)
          simp [countTrue, hz]
        · rw [if_neg hover]
          have hrec := ihA ((ip, (0 + 1, t)) :: alErase attempts ip) banned 1 hB
            (Or.inr ⟨t, alGet_cons_self _ _ _, hbound.1⟩) (by omega)
          simp only [Nat.zero_add] at hrec
          simp [countTrue]
          omega
      · simp only [allowCore, hsome]
        have hnoreset : ¬ window < t - ws := by
          obtain ⟨h1, h2⟩ := hbound
          omega
        rw [if_neg hnoreset]
        by_cases hover : maxA < c + 1
        · rw [if_pos hover]
          have hz := ihB (alErase attempts ip) ((ip, t + ban) :: alErase banned ip)
            (t + ban) (alGet_cons_self _ _ _)
            (fun x hx => by
              obtain ⟨h1, h2⟩ := hrest x hx
              obtain ⟨h3, h4⟩ := hbound
              omega)
          simp [countTrue, hz]
          omega
        · rw [if_neg hover]
          have hrec := ihA ((ip, (c + 1, ws)) :: alErase attempts ip) banned (c + 1) hB
            (Or.inr ⟨ws, alGet_cons_self _ _ _, hws⟩) (by omega)
          simp [countTrue]
          omega
    · intro attempts banned u hBu hlt
      rw [allowRun]
      simp only [allow, hBu]
      rw [if_pos (hlt t (List.mem_cons_self t ts))]
      have hz := ihB attempts banned u hBu (fun x hx => hlt x (List.mem_cons_of_mem t hx))
      simp [countTrue, hz]

/-- C7: the rate limiter's allow. (1) A call during an active ban is denied
with no state change. (2) A call at or after ban expiry clears the ban entry
(stated with no live counter and max at least 1, the state a ban leaves
behind, so the same call cannot instantly re-ban). (3) With the server's
configuration (50 attempts per 10-minute window, 15-minute ban) at most max
calls from one IP are allowed within one window starting from a clean state.
(4) The call that makes the count exceed max is denied, sets a ban expiring
ban after now, and removes the attempt counter. -/
theorem C7_rate_limiter :
    (∀ (rl : RateLimiter) (ip : String) (now u : Int),
      alGet rl.banned ip = some u → now < u → allow rl ip now = (false, rl)) ∧
    (∀ (rl : RateLimiter) (ip : String) (now u : Int),
      alGet rl.banned ip = some u → u ≤ now →
      alGet rl.attempts ip = none → 1 ≤ rl.max →
      (allow rl ip now).1 = true ∧ alGet (allow rl ip now).2.banned ip = none) ∧
    (∀ (ip : String) (t0 : Int) (ts : List Int),
      (∀ t ∈ ts, t0 ≤ t ∧ t ≤ t0 + RateLimitWindow) →
      countTrue (allowRun (newRateLimiter RateLimitAttempts RateLimitWindow BanDuration)
        ip ts).2 ≤ RateLimitAttempts) ∧
    (∀ (rl : RateLimiter) (ip : String) (now : Int) (c : Nat) (ws : Int),
      alGet rl.banned ip = none →
      alGet rl.attempts ip = some (c, ws) →
      ¬ rl.window < now - ws →
      rl.max < c + 1 →
      (allow rl ip now).1 = false ∧
      alGet (allow rl ip now).2.banned ip = some (now + rl.ban) ∧
      alGet (allow rl ip now).2.attempts ip = none) := by
  refine ⟨?_, ?_, ?_, ?_⟩
  · intro rl ip now u hB hlt
    simp only [allow, hB, if_pos hlt]
  · intro rl ip now u hB hle hA hmax
    have hnlt : ¬ now < u := not_lt.mpr hle
    simp only [allow, hB, if_neg hnlt, allowCore, hA]
    rw [if_neg (by omega)]
    exact ⟨rfl, alGet_erase_self _ _⟩
  · intro ip t0 ts hts
    have hwb : RateLimitWindow < BanDuration := by decide
    have h := ((allowRun_aux ip t0 RateLimitWindow BanDuration RateLimitAttempts hwb
      ts hts).1 [] [] 0 rfl (Or.inl ⟨rfl, rfl⟩) (Nat.zero_le _))
    simpa [newRateLimiter] using h
  · intro rl ip now c ws hB hA hnoreset hover
    simp only [allow, hB, allowCore, hA, if_neg hnoreset, if_pos hover]
    exact ⟨trivial, alGet_cons_self _ _ _, alGet_erase_self _ _⟩

/-- Witness for C7: exercises each conjunct at a concrete limiter state. -/
theorem C7_rate_limiter_witness :
    allow ⟨[], [("a", 5)], 3, 10, 20⟩ "a" 4 = (false, ⟨[], [("a", 5)], 3, 10, 20⟩) ∧
    (allow ⟨[], [("a", 5)], 3, 10, 20⟩ "a" 5).1 = true ∧
    countTrue (allowRun (newRateLimiter RateLimitAttempts RateLimitWindow BanDuration)
      "a" [0, 1]).2 ≤ RateLimitAttempts ∧
    (allow ⟨[("a", (3, 0))], [], 3, 10, 20⟩ "a" 4).1 = false ∧
    alGet (allow ⟨[("a", (3, 0))], [], 3, 10, 20⟩ "a" 4).2.banned "a" = some 24 := by
  obtain ⟨h1, h2, h3, h4⟩ := C7_rate_limiter
  refine ⟨?_, ?_, ?_, ?_, ?_⟩
  · exact h1 ⟨[], [("a", 5)], 3, 10, 20⟩ "a" 4 5 (by decide) (by decide)
  · exact (h2 ⟨[], [("a", 5)], 3, 10, 20⟩ "a" 5 5 (by decide) (by decide) (by decide)
      (by decide)).1
  · exact h3 "a" 0 [0, 1] (by decide)
  · exact (h4 ⟨[("a", (3, 0))], [], 3, 10, 20⟩ "a" 4 3 0 (by decide) (by decide)
      (by decide) (by decide)).1
  · exact (h4 ⟨[("a", (3, 0))], [], 3, 10, 20⟩ "a" 4 3 0 (by decide) (by decide)
      (by decide) (by decide)).2.1

/-! ### Claim C8: the download format byte and payload layout -/

/-- handleDownload on a fresh stored secure single-blob record: format byte 2
and the single-blob payload. -/
theorem handleDownload_secure_single (st : Store) (now : Int) (code : Bytes)
    (blob : StoredBlob) (hcode : code.length = CodeLength)
    (hget : st.get now code = some blob)
    (hfresh : ¬ StorageDuration < now - blob.createdAt)
    (hsec : blob.secure = true) (hch : blob.chunked = false) :
    handleDownload st now true code = DownloadResp.ok 2
      (WriteEncryptedBlob blob.name blob.plaintextChecksum blob.nonce blob.sealed) := by
  rw [handleDownload]
  simp only [Bool.not_true, Bool.false_eq_true, if_false]
  rw [← hcode, readBytes_all]
  simp only [hget, hsec, hch, if_neg hfresh, Bool.true_and, Bool.false_eq_true,
    if_false, if_true]

/-- handleDownload on a fresh stored secure chunked record: format byte 3 and
the streamed chunked payload. -/
theorem handleDownload_secure_chunked (st : Store) (now : Int) (code : Bytes)
    (blob : StoredBlob) (dat payload : Bytes)
    (hcode : code.length = CodeLength)
    (hget : st.get now code = some blob)
    (hfresh : ¬ StorageDuration < now - blob.createdAt)
    (hsec : blob.secure = true) (hch : blob.chunked = true)
    (hdat : alGet st.dats code = some dat)
    (hsend : sendChunkedFromFile dat blob = some payload) :
    handleDownload st now true code = DownloadResp.ok 3 payload := by
  rw [handleDownload]
  simp only [Bool.not_true, Bool.false_eq_true, if_false]
  rw [← hcode, readBytes_all]
  simp only [hget, hsec, hch, hdat, hsend, if_neg hfresh, Bool.true_and, if_true]

/-- The regular chunked upload wire is the code followed by exactly the
chunked body layout that downloads reproduce. -/
theorem uploadWire_eq_code_append (code name : Bytes) (totalPlain numChunks : Nat)
    (checksum : Bytes) (cs : List (Bytes × Bytes)) :
    uploadWire code name totalPlain numChunks checksum cs =
      code ++ secureChunkedWire name totalPlain numChunks checksum cs := by
  simp [uploadWire, secureChunkedWire, List.append_assoc]

/-- C8: every blob the three upload handlers publish has a nil legacy Chunks
field, and for such blobs the download response's format byte is 0 for
(plain, single), 1 for (plain, chunked), 2 for (secure, single) and 3 for
(secure, chunked), with the payload in the corresponding upload layout: the
single-blob payload is the WriteEncryptedBlob record (the secure single
upload body, which ReadSecureUpload parses back to the stored fields), and
the chunked payload streamed from a data file holding the blob's frames is
the chunked upload body (the upload wire minus the leading code). -/
theorem C8_download_format :
    (∀ (now : Int) (s code dat : Bytes) (blob : StoredBlob),
      handleUpload now s = UploadOutcome.ok code dat blob → blob.chunks = none) ∧
    (∀ (now : Int) (g s code dat : Bytes) (blob : StoredBlob),
      handleSecureUploadSingle now g s = UploadOutcome.ok code dat blob →
        blob.chunks = none) ∧
    (∀ (now : Int) (g s code dat : Bytes) (blob : StoredBlob),
      handleSecureUploadChunked now g s = UploadOutcome.ok code dat blob →
        blob.chunks = none) ∧
    (∀ (st : Store) (now : Int) (code : Bytes) (blob : StoredBlob),
      code.length = CodeLength → st.get now code = some blob →
      ¬ StorageDuration < now - blob.createdAt → blob.chunks = none →
      ((blob.secure = false → blob.chunked = false →
        handleDownload st now true code = DownloadResp.ok 0
          (WriteEncryptedBlob blob.name blob.plaintextChecksum blob.nonce blob.sealed)) ∧
       (blob.secure = true → blob.chunked = false →
        handleDownload st now true code = DownloadResp.ok 2
          (WriteEncryptedBlob blob.name blob.plaintextChecksum blob.nonce blob.sealed)) ∧
       (∀ cs, blob.secure = false → blob.chunked = true →
        alGet st.dats code = some (chunkFrames cs) → blob.numChunks = cs.length →
        (∀ c ∈ cs, (c.1 : Bytes).length = 12) →
        (∀ c ∈ cs, (c.2 : Bytes).length < 2 ^ 32) →
        handleDownload st now true code = DownloadResp.ok 1
          (secureChunkedWire blob.name blob.totalPlainLen cs.length
            blob.plaintextChecksum cs)) ∧
       (∀ cs, blob.secure = true → blob.chunked = true →
        alGet st.dats code = some (chunkFrames cs) → blob.numChunks = cs.length →
        (∀ c ∈ cs, (c.1 : Bytes).length = 12) →
        (∀ c ∈ cs, (c.2 : Bytes).length < 2 ^ 32) →
        handleDownload st now true code = DownloadResp.ok 3
          (secureChunkedWire blob.name blob.totalPlainLen cs.length
            blob.plaintextChecksum cs)))) ∧
    (∀ (maxSealed : Int) (blob : StoredBlob) (rest : Bytes),
      blob.plaintextChecksum.length = 32 → blob.nonce.length = 12 →
      blob.sealed.length < 2 ^ 64 →
      ¬(0 < maxSealed ∧ maxSealed < (blob.sealed.length : Int)) →
      ReadSecureUpload maxSealed
          (WriteEncryptedBlob blob.name blob.plaintextChecksum blob.nonce blob.sealed
            ++ rest) =
        Except.ok ((truncName blob.name, blob.plaintextChecksum, blob.nonce,
          blob.sealed), rest)) ∧
    (∀ (code name checksum : Bytes) (totalPlain numChunks : Nat)
        (cs : List (Bytes × Bytes)),
      uploadWire code name totalPlain numChunks checksum cs =
        code ++ secureChunkedWire name totalPlain numChunks checksum cs) := by
  refine ⟨?_, ?_, ?_, ?_, ?_, ?_⟩
  · intro now s code dat blob h
    rw [handleUpload] at h
    split at h
    · exact absurd h (by simp)
    · split at h
      · exact absurd h (by simp)
      · split at h
        · exact absurd h (by simp)
        · cases h
          rfl
  · intro now g s code dat blob h
    rw [handleSecureUploadSingle] at h
    split at h
    · exact absurd h (by simp)
    · split at h
      · exact absurd h (by simp)
      · cases h
        rfl
  · intro now g s code dat blob h
    rw [handleSecureUploadChunked] at h
    split at h
    · exact absurd h (by simp)
    · split at h
      · exact absurd h (by simp)
      · split at h
        · exact absurd h (by simp)
        · split at h
          · exact absurd h (by simp)
          · cases h
            rfl
  · intro st now code blob hcode hget hfresh hleg
    refine ⟨?_, ?_, ?_, ?_⟩
    · intro hsec hch
      exact handleDownload_single st now code blob hcode hget hfresh hsec hch hleg
    · intro hsec hch
      exact handleDownload_secure_single st now code blob hcode hget hfresh hsec hch
    · intro cs hsec hch hdat hnum h12 hlt
      have hsend := sendChunkedFromFile_spec cs blob hnum h12 hlt
      rw [hnum] at hsend
      refine handleDownload_chunked st now code blob (chunkFrames cs) _ hcode hget
        hfresh hsec hch hdat ?_
      rw [secureChunkedWire]
      exact hsend
    · intro cs hsec hch hdat hnum h12 hlt
      have hsend := sendChunkedFromFile_spec cs blob hnum h12 hlt
      rw [hnum] at hsend
      refine handleDownload_secure_chunked st now code blob (chunkFrames cs) _ hcode
        hget hfresh hsec hch hdat ?_
      rw [secureChunkedWire]
      exact hsend
  · intro maxSealed blob rest hchk hnon hlen hcap
    rw [ReadSecureUpload_wire maxSealed blob.name blob.plaintextChecksum blob.nonce
      blob.sealed rest hchk hnon hlen, if_neg hcap]
  · intro code name checksum totalPlain numChunks cs
    exact uploadWire_eq_code_append code name totalPlain numChunks checksum cs

/-- Witness for C8 at a concrete stored single-blob record. -/
theorem C8_download_format_witness :
    handleDownload c5store 0 true c1code = DownloadResp.ok 0
      (WriteEncryptedBlob c5blob.name c5blob.plaintextChecksum c5blob.nonce
        c5blob.sealed) := by
  obtain ⟨-, -, -, h4, -, -⟩ := C8_download_format
  exact (h4 c5store 0 c1code c5blob (by decide) (by decide) (by decide) (by decide)).1
    (by decide) (by decide)

/-! ### Claim C9: the probe and server selection (probeServer, tryServersFromList) -/

/-- What one probe observes: whether the dial within 500 ms succeeded,
whether the two binary reads succeeded, the server's free bytes, the
announced payload length, the number of payload bytes actually received, and
the elapsed reception time in seconds (modelled as a rational). -/
structure ProbeEnv where
  dialOk : Bool
  readFreeOk : Bool
  free : Nat
  readLenOk : Bool
  payloadLen : Nat
  delivered : Nat
  elapsed : ℚ

/-- probeServer: fail on dial or read errors, reject a server whose free
bytes are below the file size, reject an announced payload length of zero or
above 4 MiB, require the full payload, then report payload bytes divided by
the elapsed time (clamped below at 0.0001 s). -/
def probeServer (env : ProbeEnv) (fileSize : Nat) : ℚ × Bool :=
  if !env.dialOk then (0, false)
  else if !env.readFreeOk then (0, false)
  else if env.free < fileSize then (0, false)
  else if !env.readLenOk then (0, false)
  else if env.payloadLen = 0 ∨ 4 * 1024 * 1024 < env.payloadLen then (0, false)
  else if env.delivered ≠ env.payloadLen then (0, false)
  else
    ((env.payloadLen : ℚ) /
      (if env.elapsed < 1 / 10000 then (1 : ℚ) / 10000 else env.elapsed), true)

structure ProbeResult where
  serverID : Nat
  addr : String
  speedBps : ℚ
  ok : Bool

/-- The selection loop of tryServersFromList over the probe results in
arrival order: skip results that are not ok, keep the strictly fastest. The
initial best is the zero value (not ok, speed 0). -/
def selectBest (rs : List ProbeResult) : ProbeResult :=
  rs.foldl (fun best r => if r.ok ∧ best.speedBps < r.speedBps then r else best)
    ⟨0, "", 0, false⟩

/-- tryServersFromList after the probes: fail when no result is ok, else
dial the fastest (the dial is modelled as succeeding) and return its address
and server id. -/
def tryServersFromList (rs : List ProbeResult) : Except String (String × Nat) :=
  if !(selectBest rs).ok then
    .error "no server available (none had enough space or all probes failed)"
  else .ok ((selectBest rs).addr, (selectBest rs).serverID)

/-- The selection fold: the result is the initial best or an ok element of
the list, its speed dominates the initial best and every ok element, and it
is not-ok only when the initial best is not-ok and no element is ok. -/
theorem selectFold_spec (rs : List ProbeResult) :
    ∀ init : ProbeResult, (∀ r ∈ rs, r.ok = true → 0 < r.speedBps) →
    (init.ok = false → init.speedBps = 0) →
    ((rs.foldl (fun best r => if r.ok ∧ best.speedBps < r.speedBps then r else best)
        init = init ∨
      (rs.foldl (fun best r => if r.ok ∧ best.speedBps < r.speedBps then r else best)
        init ∈ rs ∧
       (rs.foldl (fun best r => if r.ok ∧ best.speedBps < r.speedBps then r else best)
        init).ok = true)) ∧
     init.speedBps ≤
       (rs.foldl (fun best r => if r.ok ∧ best.speedBps < r.speedBps then r else best)
        init).speedBps ∧
     ((rs.foldl (fun best r => if r.ok ∧ best.speedBps < r.speedBps then r else best)
        init).ok = false → init.ok = false ∧ ∀ r ∈ rs, r.ok = false) ∧
     (∀ r ∈ rs, r.ok = true → r.speedBps ≤
       (rs.foldl (fun best r => if r.ok ∧ best.speedBps < r.speedBps then r else best)
        init).speedBps)) := by
  induction rs with
  | nil =>
    intro init _ hinit
    exact ⟨Or.inl rfl, le_refl _, fun hok => ⟨hok, by simp⟩, by simp⟩
  | cons r rs ih =>
    intro init hpos hinit
    have hposr : r.ok = true → 0 < r.speedBps := hpos r (List.mem_cons_self r rs)
    have hpos' : ∀ x ∈ rs, x.ok = true → 0 < x.speedBps :=
      fun x hx => hpos x (List.mem_cons_of_mem r hx)
    simp only [List.foldl_cons]
    by_cases hstep : r.ok ∧ init.speedBps < r.speedBps
    · rw [if_pos hstep]
      have hinit' : r.ok = false → r.speedBps = 0 := by
        intro h
        rw [h] at hstep
        exact absurd hstep.1 (by simp)
      obtain ⟨hmem, hle, hok, hdom⟩ := ih r hpos' hinit'
      refine ⟨?_, le_trans (le_of_lt hstep.2) hle, ?_, ?_⟩
      · rcases hmem with h | ⟨h1, h2⟩
        · exact Or.inr ⟨by rw [h]; exact List.mem_cons_self r rs, by rw [h]; exact hstep.1⟩
        · exact Or.inr ⟨List.mem_cons_of_mem r h1, h2⟩
      · intro hfok
        obtain ⟨hrok, -⟩ := hok hfok
        exact absurd hstep.1 (by rw [hrok]; simp)
      · intro x hx hxok
        rcases List.mem_cons.mp hx with rfl | hx
        · exact hle
        · exact hdom x hx hxok
    · rw [if_neg hstep]
      obtain ⟨hmem, hle, hok, hdom⟩ := ih init hpos' hinit
      refine ⟨?_, hle, ?_, ?_⟩
      · rcases hmem with h | ⟨h1, h2⟩
        · exact Or.inl h
        · exact Or.inr ⟨List.mem_cons_of_mem r h1, h2⟩
      · intro hfok
        obtain ⟨hiok, hall⟩ := hok hfok
        refine ⟨hiok, fun x hx => ?_⟩
        rcases List.mem_cons.mp hx with rfl | hx
        · by_cases hrok : x.ok = true
          · exfalso
            have h0 : init.speedBps = 0 := hinit hiok
            have hgt : 0 < x.speedBps := hposr hrok
            exact hstep ⟨hrok, by rw [h0]; exact hgt⟩
          · exact Bool.not_eq_true _ ▸ (by revert hrok; cases x.ok <;> simp)
        · exact hall x hx
      · intro x hx hxok
        rcases List.mem_cons.mp hx with rfl | hx
        · have hnlt : ¬ init.speedBps < x.speedBps := fun h => hstep ⟨hxok, h⟩
          exact le_trans (not_lt.mp hnlt) hle
        · exact hdom x hx hxok

/-- C9: a probe is marked not-ok when the reported free bytes are below the
file size or when the announced payload length is zero or above 4 MiB; an
ok probe always has a positive measured speed; among the probe results the
selection returns an ok result whose speed dominates every ok result, and
when no result is ok it fails with the no-server-available error. -/
theorem C9_probe_selection :
    (∀ (env : ProbeEnv) (fileSize : Nat), env.free < fileSize →
      (probeServer env fileSize).2 = false) ∧
    (∀ (env : ProbeEnv) (fileSize : Nat),
      env.payloadLen = 0 ∨ 4 * 1024 * 1024 < env.payloadLen →
      (probeServer env fileSize).2 = false) ∧
    (∀ (env : ProbeEnv) (fileSize : Nat), (probeServer env fileSize).2 = true →
      0 < (probeServer env fileSize).1) ∧
    (∀ rs : List ProbeResult, (∀ r ∈ rs, r.ok = true → 0 < r.speedBps) →
      (((∃ r ∈ rs, r.ok = true) →
        ∃ b : ProbeResult, tryServersFromList rs = Except.ok (b.addr, b.serverID) ∧
          b ∈ rs ∧ b.ok = true ∧
          ∀ r ∈ rs, r.ok = true → r.speedBps ≤ b.speedBps) ∧
      ((∀ r ∈ rs, r.ok = false) →
        tryServersFromList rs =
          Except.error "no server available (none had enough space or all probes failed)"))) := by
  refine ⟨?_, ?_, ?_, ?_⟩
  · intro env fileSize hfree
    rw [probeServer]
    by_cases h1 : !env.dialOk
    · rw [if_pos h1]
    · rw [if_neg h1]
      by_cases h2 : !env.readFreeOk
      · rw [if_pos h2]
      · rw [if_neg h2, if_pos hfree]
  · intro env fileSize hbad
    rw [probeServer]
    by_cases h1 : !env.dialOk
    · rw [if_pos h1]
    · rw [if_neg h1]
      by_cases h2 : !env.readFreeOk
      · rw [if_pos h2]
      · rw [if_neg h2]
        by_cases h3 : env.free < fileSize
        · rw [if_pos h3]
        · rw [if_neg h3]
          by_cases h4 : !env.readLenOk
          · rw [if_pos h4]
          · rw [if_neg h4, if_pos hbad]
  · intro env fileSize hok
    rw [probeServer] at hok ⊢
    by_cases h1 : !env.dialOk
    · rw [if_pos h1] at hok
      exact absurd hok (by simp)
    · rw [if_neg h1] at hok ⊢
      by_cases h2 : !env.readFreeOk
      · rw [if_pos h2] at hok
        exact absurd hok (by simp)
      · rw [if_neg h2] at hok ⊢
        by_cases h3 : env.free < fileSize
        · rw [if_pos h3] at hok
          exact absurd hok (by simp)
        · rw [if_neg h3] at hok ⊢
          by_cases h4 : !env.readLenOk
          · rw [if_pos h4] at hok
            exact absurd hok (by simp)
          · rw [if_neg h4] at hok ⊢
            by_cases h5 : env.payloadLen = 0 ∨ 4 * 1024 * 1024 < env.payloadLen
            · rw [if_pos h5] at hok
              exact absurd hok (by simp)
            · rw [if_neg h5] at hok ⊢
              by_cases h6 : env.delivered ≠ env.payloadLen
              · rw [if_pos h6] at hok
                exact absurd hok (by simp)
              · rw [if_neg h6]
                have hnz : 0 < (env.payloadLen : ℚ) := by
                  have : env.payloadLen ≠ 0 := fun h => h5 (Or.inl h)
                  have : 0 < env.payloadLen := Nat.pos_of_ne_zero this
                  exact_mod_cast this
                apply div_pos hnz
                by_cases he : env.elapsed < 1 / 10000
                · rw [if_pos he]
                  norm_num
                · rw [if_neg he]
                  have := not_lt.mp he
                  linarith [this]
  · intro rs hpos
    have hspec := selectFold_spec rs ⟨0, "", 0, false⟩ hpos (fun _ => rfl)
    have hsel : rs.foldl (fun best r => if r.ok ∧ best.speedBps < r.speedBps then r else best)
        ⟨0, "", 0, false⟩ = selectBest rs := rfl
    rw [hsel] at hspec
    obtain ⟨hmem, -, hok, hdom⟩ := hspec
    constructor
    · rintro ⟨r, hr, hrok⟩
      have hbok : (selectBest rs).ok = true := by
        cases hb : (selectBest rs).ok with
        | false =>
          obtain ⟨-, hall⟩ := hok hb
          rw [hall r hr] at hrok
          exact absurd hrok (by simp)
        | true => rfl
      refine ⟨selectBest rs, ?_, ?_, hbok, hdom⟩
      · rw [tryServersFromList, hbok]
        simp
      · rcases hmem with h | ⟨h1, -⟩
        · rw [h] at hbok
          exact absurd hbok (by simp)
        · exact h1
    · intro hall
      have hbok : (selectBest rs).ok = false := by
        rcases hmem with h | ⟨h1, h2⟩
        · rw [h]
        · rw [hall _ h1] at h2
          exact absurd h2 (by simp)
      rw [tryServersFromList, hbok]
      simp

/-- Witness for C9 at concrete probe environments and result lists. -/
theorem C9_probe_selection_witness :
    (probeServer ⟨true, true, 5, true, 100, 100, 1⟩ 10).2 = false ∧
    (probeServer ⟨true, true, 50, true, 0, 0, 1⟩ 10).2 = false ∧
    0 < (probeServer ⟨true, true, 50, true, 100, 100, 1⟩ 10).1 ∧
    (∃ b : ProbeResult,
      tryServersFromList [⟨1, "x", 3, true⟩, ⟨2, "y", 7, true⟩] =
        Except.ok (b.addr, b.serverID) ∧
      b ∈ [⟨1, "x", 3, true⟩, ⟨2, "y", 7, true⟩] ∧ b.ok = true ∧
      ∀ r ∈ [(⟨1, "x", 3, true⟩ : ProbeResult), ⟨2, "y", 7, true⟩], r.ok = true →
        r.speedBps ≤ b.speedBps) ∧
    tryServersFromList [⟨1, "x", 3, false⟩] =
      Except.error "no server available (none had enough space or all probes failed)" := by
  obtain ⟨h1, h2, h3, h4⟩ := C9_probe_selection
  refine ⟨?_, ?_, ?_, ?_, ?_⟩
  · exact h1 ⟨true, true, 5, true, 100, 100, 1⟩ 10 (by decide)
  · exact h2 ⟨true, true, 50, true, 0, 0, 1⟩ 10 (by decide)
  · exact h3 ⟨true, true, 50, true, 100, 100, 1⟩ 10 (by norm_num [probeServer])
  · exact (h4 [⟨1, "x", 3, true⟩, ⟨2, "y", 7, true⟩]
      (by intro r hr hok; fin_cases hr <;> norm_num)).1
      ⟨⟨1, "x", 3, true⟩, by simp, rfl⟩
  · exact (h4 [⟨1, "x", 3, false⟩]
      (by intro r hr hok; fin_cases hr <;> simp at hok)).2
      (by intro r hr; fin_cases hr <;> rfl)

/-! ### Claim C10: fetchServerList's default for server id 0 -/

/-- Go's strings.TrimSpace cuts leading and trailing whitespace; the ASCII
whitespace characters suffice for the address-list bodies modelled here. -/
def isSpaceB (c : Char) : Bool :=
  c = ' ' ∨ c = '\t' ∨ c = '\n' ∨ c = '\r'

def trimSpace (l : List Char) : List Char :=
  ((l.dropWhile isSpaceB).reverse.dropWhile isSpaceB).reverse

/-- strings.Split on the newline character. -/
def splitOnNl : List Char → List (List Char)
  | [] => [[]]
  | c :: rest =>
    if c = '\n' then [] :: splitOnNl rest
    else
      match splitOnNl rest with
      | [] => [[c]]
      | line :: more => (c :: line) :: more

/-- strings.Index for a single character: the position of its first
occurrence. -/
def idxOf (c : Char) : List Char → Option Nat
  | [] => none
  | x :: rest => if x = c then some 0 else (idxOf c rest).map (· + 1)

def isDigitB (c : Char) : Bool := decide ('0' ≤ c ∧ c ≤ '9')

/-- The digit run at the front of the string, as a number; none when there
is no digit. -/
def parseDigits (l : List Char) : Option Nat :=
  let ds := l.takeWhile isDigitB
  if ds = [] then none
  else some (ds.foldl (fun acc c => acc * 10 + (c.toNat - 48)) 0)

/-- fmt.Sscanf with "%d": skip leading spaces, an optional sign, then at
least one digit; trailing bytes after the digits are ignored. -/
def parseGoInt (l : List Char) : Option Int :=
  let l := l.dropWhile isSpaceB
  match l with
  | '-' :: rest => (parseDigits rest).map (fun n => -(n : Int))
  | '+' :: rest => (parseDigits rest).map (fun n => (n : Int))
  | _ => (parseDigits l).map (fun n => (n : Int))

/-- One line of the address list: trim it; skip blanks and lines starting
with '#'; require a colon at a positive index; the part before the first
colon must scan as an id in 0..9 and the trimmed part after it must be
non-empty. Returns the (id, host:port) pair to store, or none to skip. -/
def parseLine (line : List Char) : Option (Nat × List Char) :=
  let line := trimSpace line
  if line = [] then none
  else if line.head? = some '#' then none
  else
    match idxOf ':' line with
    | none => none
    | some 0 => none
    | some idx =>
      let hostPort := trimSpace (line.drop (idx + 1))
      if hostPort = [] then none
      else
        match parseGoInt (line.take idx) with
        | none => none
        | some id => if id < 0 ∨ 9 < id then none else some (id.toNat, hostPort)

def serverListStep (addrs : List (List Char)) (line : List Char) : List (List Char) :=
  match parseLine line with
  | none => addrs
  | some (id, hostPort) => addrs.set id hostPort

/-- The loop of fetchServerList over the body's lines, filling a ten-entry
array that starts all-empty. -/
def parseServerList (body : List Char) : List (List Char) :=
  (splitOnNl body).foldl serverListStep (List.replicate 10 [])

/-- The hard-coded fallback address for server id 0. -/
def defaultAddr : List Char := "94.249.197.155:9999".toList

/-- fetchServerList: parse the fetched body, then fill slot 0 with the
hard-coded default address when it is still empty. -/
def fetchServerList (body : List Char) : List (List Char) :=
  let addrs := parseServerList body
  if addrs.getD 0 [] = [] then addrs.set 0 defaultAddr else addrs

theorem serverListStep_length (addrs : List (List Char)) (line : List Char) :
    (serverListStep addrs line).length = addrs.length := by
  rw [serverListStep]
  cases parseLine line with
  | none => rfl
  | some p => simp [List.length_set]

theorem parseServerList_length (body : List Char) :
    (parseServerList body).length = 10 := by
  rw [parseServerList]
  generalize splitOnNl body = lines
  have h : ∀ (ls : List (List Char)) (acc : List (List Char)),
      (ls.foldl serverListStep acc).length = acc.length := by
    intro ls
    induction ls with
    | nil => intro acc; rfl
    | cons l ls ih =>
      intro acc
      rw [List.foldl_cons, ih, serverListStep_length]
  rw [h]
  simp

/-- C10: whenever the parsed address list has no entry for server id 0, the
client silently fills slot 0 with the hard-coded default address
94.249.197.155:9999; consequently slot 0 of the fetched list is never empty
(so selecting and uploading to server id 0 always has an address), and the
list always has ten slots. -/
theorem C10_default_server :
    (∀ body : List Char, (parseServerList body).getD 0 [] = [] →
      (fetchServerList body).getD 0 [] = defaultAddr) ∧
    (∀ body : List Char, (fetchServerList body).getD 0 [] ≠ []) ∧
    (∀ body : List Char, (fetchServerList body).length = 10) := by
  have hget0 : ∀ (l : List (List Char)) (v : List Char), l ≠ [] →
      ((l.set 0 v).getD 0 []) = v := by
    intro l v hl
    cases l with
    | nil => exact absurd rfl hl
    | cons x xs => rfl
  have hne : ∀ body : List Char, parseServerList body ≠ [] := by
    intro body h
    have := parseServerList_length body
    rw [h] at this
    exact absurd this (by decide)
  refine ⟨?_, ?_, ?_⟩
  · intro body h0
    rw [fetchServerList]
    simp only [h0, if_pos rfl]
    exact hget0 _ _ (hne body)
  · intro body
    rw [fetchServerList]
    by_cases h0 : (parseServerList body).getD 0 [] = []
    · rw [if_pos h0, hget0 _ _ (hne body)]
      decide
    · rw [if_neg h0]
      exact h0
  · intro body
    rw [fetchServerList]
    by_cases h0 : (parseServerList body).getD 0 [] = []
    · rw [if_pos h0]
      rw [List.length_set]
      exact parseServerList_length body
    · rw [if_neg h0]
      exact parseServerList_length body

/-- Witness for C10 at a body whose every line is blank, a comment or
malformed (plus one valid line for a different id). -/
theorem C10_default_server_witness :
    (parseServerList "# c\n\nbad\n:x\n5:h:1".toList).getD 0 [] = [] ∧
    (fetchServerList "# c\n\nbad\n:x\n5:h:1".toList).getD 0 [] = defaultAddr ∧
    (fetchServerList "# c\n\nbad\n:x\n5:h:1".toList).getD 0 [] ≠ [] ∧
    (fetchServerList "# c\n\nbad\n:x\n5:h:1".toList).length = 10 := by
  obtain ⟨h1, h2, h3⟩ := C10_default_server
  exact ⟨by decide, h1 "# c\n\nbad\n:x\n5:h:1".toList (by decide),
    h2 "# c\n\nbad\n:x\n5:h:1".toList, h3 "# c\n\nbad\n:x\n5:h:1".toList⟩

end RawUploader
